import Mathlib

/-!
Row-based binlog event decoding (`replication/row_event.go`)

A shallow embedding of the decoders of `replication/row_event.go`:
`TableMapEvent.Decode`, `TableMapEvent.decodeMeta`, `RowsEvent.Decode`,
`RowsEvent.decodeRows`, `RowsEvent.decodeValue` and their helpers.

Modelling conventions.

* A byte is a natural number (a well-formed byte is below 256); a byte slice
  is the list of its bytes.  The capacity of the event body is taken equal to
  its length, so a slice expression `data[lo:hi]` is in range exactly when
  `lo ≤ hi ≤ len(data)`.  A `nil` slice is `none`, a non-nil slice is `some`.
* A Go call ends in one of three ways: it returns with a `nil` error
  (`Ret.ok`), it returns with a non-nil error (`Ret.error`, carrying the values
  returned next to the error), or it panics on an out-of-range index or slice
  expression (`Ret.panic`).
* `uint16` arithmetic is written with an explicit `% 65536`, `int` is the
  64-bit two-complement integer (`toInt64`).
* The row loop of `RowsEvent.Decode` is unbounded; it is modelled with a fuel
  argument, and `none` means the fuel ran out before the loop ended.
-/

namespace Replication

/-- A byte slice: the list of its bytes. -/
abbrev Bytes := List Nat

/-- The errors the decoders of `row_event.go` return. -/
inductive Error where
  /-- The value `io.EOF`. -/
  | eof
  /-- The error "unsupport type in binlog %d" of `decodeMeta`. -/
  | unsupportTypeInBinlog (t : Nat)
  /-- The error "invalid table id %d, no correspond table map event". -/
  | invalidTableId (id : Nat)
  /-- The error "Unknown ENUM packlen=%d". -/
  | unknownEnumPacklen (l : Nat)
  /-- The error "invalid blob packlen = %d". -/
  | invalidBlobPacklen (m : Nat)
  /-- The error "unsupport type %d in binlog and don't know how to handle". -/
  | unsupportType (t : Nat)
deriving DecidableEq, Repr

/-- How a Go call ends: a return with a nil error, a return with a non-nil
error (with the values returned next to it), or a run-time panic. -/
inductive Ret (α : Type) where
  | ok (a : α)
  | error (a : α) (err : Error)
  | panic
deriving DecidableEq, Repr

/-! ## Slice expressions -/

/-- The index expression `data[i]`; `none` is the out-of-range panic. -/
def index {α : Type} (data : List α) (i : Nat) : Option α := data[i]?

/-- The index expression `xs[i]` for an `int` index. -/
def indexInt {α : Type} (xs : List α) (i : Int) : Option α :=
  if 0 ≤ i then xs[i.toNat]? else none

/-- The slice expression `data[lo:]`. -/
def sliceFrom (data : Bytes) (lo : Nat) : Option Bytes :=
  if lo ≤ data.length then some (data.drop lo) else none

/-- The slice expression `data[lo:hi]` with `int` bounds. -/
def slice (data : Bytes) (lo hi : Int) : Option Bytes :=
  if 0 ≤ lo ∧ lo ≤ hi ∧ hi ≤ data.length then
    some ((data.drop lo.toNat).take (hi.toNat - lo.toNat))
  else none

/-- The assignment `xs[i] = v`; `none` is the out-of-range panic. -/
def assign {α : Type} (xs : List α) (i : Nat) (v : α) : Option (List α) :=
  if i < xs.length then some (xs.set i v) else none

/-- Conversion to the 64-bit `int`: reduction into `[-2^63, 2^63)`. -/
def toInt64 (x : Int) : Int := (x + 2 ^ 63) % 2 ^ 64 - 2 ^ 63

/-- The little-endian value of a byte list. -/
def leUint : Bytes → Nat
  | [] => 0
  | b :: bs => b + 256 * leUint bs

/-- The standard library `binary.LittleEndian.Uint16`: it panics on fewer than
two bytes. -/
def littleEndianUint16 (b : Bytes) : Option Nat :=
  if 2 ≤ b.length then some (leUint (b.take 2) % 65536) else none

/-- The standard library `binary.LittleEndian.Uint32`: it panics on fewer than
four bytes. -/
def littleEndianUint32 (b : Bytes) : Option Nat :=
  if 4 ≤ b.length then some (leUint (b.take 4) % 4294967296) else none

/-! ## Primitives of package `mysql` -/

/-- Modelled from the spec: the column type tags of package `mysql`, which is
not under `src/`. The spec names the tags; the values are those of the MySQL
wire protocol. -/
abbrev MYSQL_TYPE_DECIMAL : Nat := 0
/-- Modelled from the spec: type tag TINY. -/
abbrev MYSQL_TYPE_TINY : Nat := 1
/-- Modelled from the spec: type tag SHORT. -/
abbrev MYSQL_TYPE_SHORT : Nat := 2
/-- Modelled from the spec: type tag LONG. -/
abbrev MYSQL_TYPE_LONG : Nat := 3
/-- Modelled from the spec: type tag FLOAT. -/
abbrev MYSQL_TYPE_FLOAT : Nat := 4
/-- Modelled from the spec: type tag DOUBLE. -/
abbrev MYSQL_TYPE_DOUBLE : Nat := 5
/-- Modelled from the spec: type tag NULL. -/
abbrev MYSQL_TYPE_NULL : Nat := 6
/-- Modelled from the spec: type tag TIMESTAMP. -/
abbrev MYSQL_TYPE_TIMESTAMP : Nat := 7
/-- Modelled from the spec: type tag LONGLONG. -/
abbrev MYSQL_TYPE_LONGLONG : Nat := 8
/-- Modelled from the spec: type tag INT24. -/
abbrev MYSQL_TYPE_INT24 : Nat := 9
/-- Modelled from the spec: type tag DATE. -/
abbrev MYSQL_TYPE_DATE : Nat := 10
/-- Modelled from the spec: type tag TIME. -/
abbrev MYSQL_TYPE_TIME : Nat := 11
/-- Modelled from the spec: type tag DATETIME. -/
abbrev MYSQL_TYPE_DATETIME : Nat := 12
/-- Modelled from the spec: type tag YEAR. -/
abbrev MYSQL_TYPE_YEAR : Nat := 13
/-- Modelled from the spec: type tag NEWDATE. -/
abbrev MYSQL_TYPE_NEWDATE : Nat := 14
/-- Modelled from the spec: type tag VARCHAR. -/
abbrev MYSQL_TYPE_VARCHAR : Nat := 15
/-- Modelled from the spec: type tag BIT. -/
abbrev MYSQL_TYPE_BIT : Nat := 16
/-- Modelled from the spec: type tag TIMESTAMP2. -/
abbrev MYSQL_TYPE_TIMESTAMP2 : Nat := 17
/-- Modelled from the spec: type tag DATETIME2. -/
abbrev MYSQL_TYPE_DATETIME2 : Nat := 18
/-- Modelled from the spec: type tag TIME2. -/
abbrev MYSQL_TYPE_TIME2 : Nat := 19
/-- Modelled from the spec: type tag NEWDECIMAL. -/
abbrev MYSQL_TYPE_NEWDECIMAL : Nat := 0xf6
/-- Modelled from the spec: type tag ENUM. -/
abbrev MYSQL_TYPE_ENUM : Nat := 0xf7
/-- Modelled from the spec: type tag SET. -/
abbrev MYSQL_TYPE_SET : Nat := 0xf8
/-- Modelled from the spec: type tag TINY_BLOB. -/
abbrev MYSQL_TYPE_TINY_BLOB : Nat := 0xf9
/-- Modelled from the spec: type tag MEDIUM_BLOB. -/
abbrev MYSQL_TYPE_MEDIUM_BLOB : Nat := 0xfa
/-- Modelled from the spec: type tag LONG_BLOB. -/
abbrev MYSQL_TYPE_LONG_BLOB : Nat := 0xfb
/-- Modelled from the spec: type tag BLOB. -/
abbrev MYSQL_TYPE_BLOB : Nat := 0xfc
/-- Modelled from the spec: type tag VAR_STRING. -/
abbrev MYSQL_TYPE_VAR_STRING : Nat := 0xfd
/-- Modelled from the spec: type tag STRING. -/
abbrev MYSQL_TYPE_STRING : Nat := 0xfe
/-- Modelled from the spec: type tag GEOMETRY. -/
abbrev MYSQL_TYPE_GEOMETRY : Nat := 0xff

/-- Modelled from the spec: the primitive `FixedLengthInt` of package `mysql`
(not under `src/`), the "fixed-length little-endian integer decode from a byte
prefix of known width", as an unsigned 64-bit value. -/
def FixedLengthInt (buf : Bytes) : Nat := leUint buf % 2 ^ 64

/-- Modelled from the spec: the primitive `LengthEncodedInt` of package
`mysql` (not under `src/`), the "length-encoded (variable-width,
self-describing prefix) integer decode returning (value, consumedBytes)" in the
MySQL wire format: a first byte 0xfc, 0xfd or 0xfe announces a 2-, 3- or 8-byte
little-endian value, 0xfb is the NULL marker, any other first byte is the
value. The value is a `uint64`. The result is `(num, isNull, n)`; `none` is the out-of-range panic on
too few bytes. -/
def LengthEncodedInt (b : Bytes) : Option (Nat × Bool × Nat) :=
  match index b 0 with
  | none => none
  | some b0 =>
    if b0 = 0xfb then some (0, true, 1)
    else if b0 = 0xfc then
      if 3 ≤ b.length then some (leUint ((b.drop 1).take 2) % 2 ^ 64, false, 3) else none
    else if b0 = 0xfd then
      if 4 ≤ b.length then some (leUint ((b.drop 1).take 3) % 2 ^ 64, false, 4) else none
    else if b0 = 0xfe then
      if 9 ≤ b.length then some (leUint ((b.drop 1).take 8) % 2 ^ 64, false, 9) else none
    else some (b0 % 2 ^ 64, false, 1)

/-- Modelled from the spec: the primitive `LengthEnodedString` of package
`mysql` (not under `src/`), the "length-encoded string decode returning
(payloadBytes, totalConsumed)": a length-encoded integer followed by that many
payload bytes; a zero length gives a nil payload, and too few payload bytes
give the error `io.EOF`. The result is `(payload, isNull, n)`. -/
def LengthEnodedString (b : Bytes) : Ret (Option Bytes × Bool × Nat) :=
  match LengthEncodedInt b with
  | none => .panic
  | some (num, isNull, n) =>
    if num < 1 then .ok (none, isNull, n)
    else if n + num ≤ b.length then .ok (some ((b.drop n).take num), false, n + num)
    else .error (none, false, n + num) .eof

/-- The number of set bits among the low eight bits of a byte: the bit
positions at which the mask test of `bitGet` is not zero. -/
def bitCountInByte (b : Nat) : Nat :=
  (List.range' 0 8).countP (fun k => b &&& (1 <<< k) != 0)

/-- Modelled from the spec: the primitive `bitCount` (not under `src/`), the
"population-count over a byte slice". -/
def bitCount (bitmap : Bytes) : Nat := (bitmap.map bitCountInByte).sum

/-- Modelled from the spec: the primitive `bitGet` (not under `src/`), the
"bitmap bit-test-by-index" over a byte slice: the byte `bitmap[off/8]` masked
with bit `off mod 8`, zero exactly when the bit is unset; `none` is the
out-of-range panic. -/
def bitGet (bitmap : Bytes) (off : Nat) : Option Nat :=
  match index bitmap (off / 8) with
  | none => none
  | some bit => some (bit &&& (1 <<< (off % 8)))

/-! ## Column value decoder -/

/-- The function `decodeString` (lines 437-450): a value with a 1-byte length
when `length < 256`, with a 2-byte little-endian length otherwise. -/
def decodeString (data : Bytes) (length : Int) : Option (Bytes × Nat) :=
  if length < 256 then
    match index data 0 with
    | none => none
    | some l =>
      match slice data 0 (l + 1) with
      | none => none
      | some v => some (v, l + 1)
  else
    match littleEndianUint16 data with
    | none => none
    | some l =>
      match slice data 0 (l + 2) with
      | none => none
      | some v => some (v, l + 2)

/-- The constant `digitsPerInteger` (line 452). -/
def digitsPerInteger : Int := 9

/-- The table `compressedBytes` (line 454). -/
def compressedBytes : List Int := [0, 1, 1, 2, 2, 3, 3, 4, 4, 4]

/-- The function `decodeDecimal` (lines 456-531); the division of `int` is the
truncating one. -/
def decodeDecimal (data : Bytes) (precision decimals : Int) : Ret (Option Bytes × Nat) :=
  let pos : Int := 0
  let integral := precision - decimals
  let uncompIntegral := Int.tdiv integral digitsPerInteger
  let uncompFractional := Int.tdiv decimals digitsPerInteger
  let compIntegral := integral - uncompIntegral * digitsPerInteger
  let compFractional := decimals - uncompFractional * digitsPerInteger
  match indexInt compressedBytes compIntegral with
  | none => .panic
  | some size =>
    let pos := if size > 0 then pos + size else pos
    let pos := pos + uncompIntegral * 4
    let pos := pos + 4 * uncompFractional
    match indexInt compressedBytes compFractional with
    | none => .panic
    | some size =>
      let pos := if size > 0 then pos + size else pos
      match slice data 0 pos with
      | none => .panic
      | some v => .ok (some v, pos.toNat)

/-- The function `decodeTimestamp2` (lines 565-569); `dec` is a `uint16`. -/
def decodeTimestamp2 (data : Bytes) (dec : Nat) : Ret (Option Bytes × Nat) :=
  let n := (4 + (dec + 1) % 65536 / 2) % 65536
  match slice data 0 n with
  | none => .panic
  | some v => .ok (some v, n)

/-- The function `decodeDatetime2` (lines 573-577). -/
def decodeDatetime2 (data : Bytes) (dec : Nat) : Ret (Option Bytes × Nat) :=
  let n := (5 + (dec + 1) % 65536 / 2) % 65536
  match slice data 0 n with
  | none => .panic
  | some v => .ok (some v, n)

/-- The function `decodeTime2` (lines 582-586). -/
def decodeTime2 (data : Bytes) (dec : Nat) : Ret (Option Bytes × Nat) :=
  let n := (3 + (dec + 1) % 65536 / 2) % 65536
  match slice data 0 n with
  | none => .panic
  | some v => .ok (some v, n)

/-- The statements `n = k; v = data[0:k]` of `decodeValue`. -/
def fixedWidth (data : Bytes) (k : Nat) : Ret (Option Bytes × Nat) :=
  match slice data 0 k with
  | none => .panic
  | some v => .ok (some v, k)

/-- The unpacking of a STRING column's metadata (lines 317-332): the pair of
the effective length and the effective type tag. -/
def unpackString (tp meta : Nat) : Int × Nat :=
  if tp = MYSQL_TYPE_STRING then
    if meta >= 256 then
      let b0 := (meta >>> 8) % 256
      let b1 := (meta &&& 0xFF) % 256
      if b0 &&& 0x30 ≠ 0x30 then
        ((b1 ||| ((((b0 &&& 0x30) ^^^ 0x30) <<< 4) % 65536) : Nat), (b0 ||| 0x30) % 256)
      else
        ((meta &&& 0xFF : Nat), b0)
    else
      ((meta : Nat), tp)
  else (0, tp)

/-- The method `RowsEvent.decodeValue` (lines 314-435). It does not use its
receiver. The result is the pair `(v, n)`, with the error when one is
returned. -/
def decodeValue (data : Bytes) (tp meta : Nat) : Ret (Option Bytes × Nat) :=
  let length := (unpackString tp meta).1
  let tp := (unpackString tp meta).2
  if tp = MYSQL_TYPE_NULL then .ok (none, 0)
  else if tp = MYSQL_TYPE_LONG then fixedWidth data 4
  else if tp = MYSQL_TYPE_TINY then fixedWidth data 1
  else if tp = MYSQL_TYPE_SHORT then fixedWidth data 2
  else if tp = MYSQL_TYPE_INT24 then fixedWidth data 3
  else if tp = MYSQL_TYPE_LONGLONG then fixedWidth data 8
  else if tp = MYSQL_TYPE_NEWDECIMAL then
    let prec := (meta >>> 8) % 256
    let scale := (meta &&& 0xFF) % 256
    decodeDecimal data prec scale
  else if tp = MYSQL_TYPE_FLOAT then fixedWidth data 4
  else if tp = MYSQL_TYPE_DOUBLE then fixedWidth data 8
  else if tp = MYSQL_TYPE_BIT then
    let nbits := (((meta >>> 8) * 8) % 65536 + (meta &&& 0xFF)) % 65536
    fixedWidth data ((nbits + 7) % 65536 / 8)
  else if tp = MYSQL_TYPE_TIMESTAMP then fixedWidth data 4
  else if tp = MYSQL_TYPE_TIMESTAMP2 then decodeTimestamp2 data meta
  else if tp = MYSQL_TYPE_DATETIME then fixedWidth data 8
  else if tp = MYSQL_TYPE_DATETIME2 then decodeDatetime2 data meta
  else if tp = MYSQL_TYPE_TIME then fixedWidth data 3
  else if tp = MYSQL_TYPE_TIME2 then decodeTime2 data meta
  else if tp = MYSQL_TYPE_DATE then fixedWidth data 3
  else if tp = MYSQL_TYPE_YEAR then fixedWidth data 1
  else if tp = MYSQL_TYPE_ENUM then
    let l := meta &&& 0xFF
    if l = 1 then fixedWidth data 1
    else if l = 2 then fixedWidth data 2
    else .error (none, 0) (.unknownEnumPacklen l)
  else if tp = MYSQL_TYPE_SET then
    let nbits := meta &&& 0xFF
    fixedWidth data ((nbits + 7) % 65536 / 8)
  else if tp = MYSQL_TYPE_BLOB then
    if meta = 1 then
      match index data 0 with
      | none => .panic
      | some length => fixedWidth data (length + 1)
    else if meta = 2 then
      match littleEndianUint16 data with
      | none => .panic
      | some length => fixedWidth data (length + 2)
    else if meta = 3 then
      match slice data 0 3 with
      | none => .panic
      | some b => fixedWidth data (FixedLengthInt b + 3)
    else if meta = 4 then
      match littleEndianUint32 data with
      | none => .panic
      | some length => fixedWidth data (length + 4)
    else .error (none, 0) (.invalidBlobPacklen meta)
  else if tp = MYSQL_TYPE_VARCHAR ∨ tp = MYSQL_TYPE_VAR_STRING then
    match decodeString data meta with
    | none => .panic
    | some (v, n) => .ok (some v, n)
  else if tp = MYSQL_TYPE_STRING then
    match decodeString data length with
    | none => .panic
    | some (v, n) => .ok (some v, n)
  else .error (none, 0) (.unsupportType tp)

/-! ## Table map events -/

/-- The type `TableMapEvent` (lines 12-28). -/
structure TableMapEvent where
  TableIDSize : Int
  TableID : Nat
  Flags : Nat
  Schema : Bytes
  Table : Bytes
  ColumnCount : Nat
  ColumnType : Bytes
  ColumnMeta : List Nat
  NullBitmap : Bytes
deriving DecidableEq, Repr

/-- The function `bitmapByteSize` (lines 84-86), on the 64-bit `int`; the
division is the truncating one. -/
def bitmapByteSize (columnCount : Int) : Int :=
  Int.tdiv (toInt64 (columnCount + 7)) 8

/-- The built-in `make([]T, n)` for a `uint64` count: it panics when the count
does not fit in `int`; otherwise the allocation is taken to succeed, and gives
`n` zero values. -/
def makeSlice {α : Type} (n : Nat) (zero : α) : Option (List α) :=
  if n % 2 ^ 64 < 2 ^ 63 then some (List.replicate (n % 2 ^ 64) zero) else none

/-- What one case of the `switch` of `decodeMeta` (lines 134-170) does before
it stores the value: the value read at `pos` and the number of bytes `pos`
advances by, the unsupported-type return, or an out-of-range panic. -/
inductive MetaCase where
  | value (x : Nat) (width : Nat)
  | unsupported
  | panic
deriving DecidableEq, Repr

/-- The `switch t` of `decodeMeta` (lines 134-170) at offset `pos` of the
metadata block. -/
def decodeMetaCase (data : Bytes) (pos : Nat) (t : Nat) : MetaCase :=
  if t = MYSQL_TYPE_STRING then
    match index data pos, index data (pos + 1) with
    | some b0, some b1 => .value (((b0 <<< 8) % 65536 + b1) % 65536) 2
    | _, _ => .panic
  else if t = MYSQL_TYPE_NEWDECIMAL then
    match index data pos, index data (pos + 1) with
    | some b0, some b1 => .value (((b0 <<< 8) % 65536 + b1) % 65536) 2
    | _, _ => .panic
  else if t = MYSQL_TYPE_VAR_STRING ∨ t = MYSQL_TYPE_VARCHAR ∨ t = MYSQL_TYPE_BIT then
    match (sliceFrom data pos).bind littleEndianUint16 with
    | some x => .value x 2
    | none => .panic
  else if t = MYSQL_TYPE_BLOB ∨ t = MYSQL_TYPE_DOUBLE ∨ t = MYSQL_TYPE_FLOAT ∨
      t = MYSQL_TYPE_GEOMETRY then
    match index data pos with
    | some b => .value b 1
    | none => .panic
  else if t = MYSQL_TYPE_TIME2 ∨ t = MYSQL_TYPE_DATETIME2 ∨ t = MYSQL_TYPE_TIMESTAMP2 then
    match index data pos with
    | some b => .value b 1
    | none => .panic
  else if t = MYSQL_TYPE_NEWDATE ∨ t = MYSQL_TYPE_ENUM ∨ t = MYSQL_TYPE_SET ∨
      t = MYSQL_TYPE_TINY_BLOB ∨ t = MYSQL_TYPE_MEDIUM_BLOB ∨ t = MYSQL_TYPE_LONG_BLOB then
    .unsupported
  else .value 0 0

/-- The loop `for i, t := range e.ColumnType` of `decodeMeta` (lines 133-171),
over the remaining type tags, from column `i` and offset `pos`, on the
metadata values stored so far. -/
def decodeMetaLoop (data : Bytes) : List Nat → Nat → Nat → List Nat → Ret (List Nat)
  | [], _, _, columnMeta => .ok columnMeta
  | t :: ts, i, pos, columnMeta =>
    match decodeMetaCase data pos t with
    | .panic => .panic
    | .unsupported => .error columnMeta (.unsupportTypeInBinlog t)
    | .value x width =>
      match assign columnMeta i x with
      | none => .panic
      | some columnMeta => decodeMetaLoop data ts (i + 1) (pos + width) columnMeta

/-- The method `TableMapEvent.decodeMeta` (lines 130-174). -/
def TableMapEvent.decodeMeta (e : TableMapEvent) (data : Bytes) : Ret TableMapEvent :=
  match makeSlice e.ColumnCount 0 with
  | none => .panic
  | some columnMeta =>
    match decodeMetaLoop data e.ColumnType 0 0 columnMeta with
    | .panic => .panic
    | .error columnMeta err => .error { e with ColumnMeta := columnMeta } err
    | .ok columnMeta => .ok { e with ColumnMeta := columnMeta }

/-- The first steps of `TableMapEvent.Decode` (lines 31-61), which can only
panic: table identifier, flags, schema name, table name, column count and
column types. The result is the event and the cursor `pos`. -/
def TableMapEvent.decodeHead (e : TableMapEvent) (data : Bytes) :
    Option (TableMapEvent × Nat) := do
  let pos : Nat := 0
  let b ← slice data 0 e.TableIDSize
  let e := { e with TableID := FixedLengthInt b }
  let pos := pos + e.TableIDSize.toNat
  let flags ← (sliceFrom data pos).bind littleEndianUint16
  let e := { e with Flags := flags }
  let pos := pos + 2
  let schemaLength ← index data pos
  let pos := pos + 1
  let schema ← slice data pos (pos + schemaLength)
  let e := { e with Schema := schema }
  let pos := pos + schemaLength
  let pos := pos + 1
  let tableLength ← index data pos
  let pos := pos + 1
  let table ← slice data pos (pos + tableLength)
  let e := { e with Table := table }
  let pos := pos + tableLength
  let pos := pos + 1
  let (columnCount, _, n) ← (sliceFrom data pos).bind LengthEncodedInt
  let e := { e with ColumnCount := columnCount }
  let pos := pos + n
  let columnType ← slice data pos (pos + toInt64 e.ColumnCount)
  let e := { e with ColumnType := columnType }
  let pos := pos + (toInt64 e.ColumnCount).toNat
  pure (e, pos)

/-- The method `TableMapEvent.Decode` (lines 30-82). -/
def TableMapEvent.Decode (e : TableMapEvent) (data : Bytes) : Ret TableMapEvent :=
  match e.decodeHead data with
  | none => .panic
  | some (e, pos) =>
    match (sliceFrom data pos).elim .panic LengthEnodedString with
    | .panic => .panic
    | .error _ err => .error e err
    | .ok (metaData, _, n) =>
      match e.decodeMeta (metaData.getD []) with
      | .panic => .panic
      | .error e err => .error e err
      | .ok e =>
        let pos := pos + n
        match sliceFrom data pos with
        | none => .panic
        | some rest =>
          if (rest.length : Int) ≠ bitmapByteSize (toInt64 e.ColumnCount) then .error e .eof
          else .ok { e with NullBitmap := rest }

/-! ## Rows events -/

/-- A row image (an element of `RowsEvent.Rows`, of type `[][]byte`): one
entry per column, `nil` or a raw segment. -/
abbrev RowImage := List (Option Bytes)

/-- The type `RowsEvent` (lines 187-215). The map `Tables` is the list of its
key-value pairs, looked up by key; `Table` is `nil` before the lookup. -/
structure RowsEvent where
  Version : Int
  TableIDSize : Int
  Tables : List (Nat × TableMapEvent)
  NeedBitmap2 : Bool
  Table : Option TableMapEvent
  TableID : Nat
  Flags : Nat
  ExtraData : Bytes
  ColumnCount : Nat
  ColumnBitmap1 : Bytes
  ColumnBitmap2 : Bytes
  Rows : List RowImage
deriving DecidableEq, Repr

/-- How the column loop of `decodeRows` (lines 286-307) ends: it runs through
all columns (`done`, with the image and the cursor), it leaves at the
`return 0, nil` of lines 301-303 because `decodeValue` returned an error
(`valueError`), or it panics. -/
inductive RowPass where
  | done (rows : RowImage) (pos : Nat)
  | valueError
  | panic
deriving DecidableEq, Repr

/-- The loop `for i := 0; i < int(e.ColumnCount); i++` of `decodeRows`
(lines 286-307): the first argument is the number of columns still to visit,
then the column `i`, the image `rows`, the cursor `pos` and `nullbitIndex`. -/
def decodeRowsLoop (table : TableMapEvent) (bitmap data nullBitmap : Bytes) :
    Nat → Nat → RowImage → Nat → Nat → RowPass
  | 0, _, rows, pos, _ => .done rows pos
  | k + 1, i, rows, pos, nullbitIndex =>
    match index nullBitmap (nullbitIndex / 8) with
    | none => .panic
    | some b =>
      let isNull := ((b % 4294967296) >>> (nullbitIndex % 8)) &&& 0x01
      match bitGet bitmap i with
      | none => .panic
      | some present =>
        if present = 0 then
          decodeRowsLoop table bitmap data nullBitmap k (i + 1) rows pos nullbitIndex
        else if isNull > 0 then
          match assign rows i none with
          | none => .panic
          | some rows =>
            decodeRowsLoop table bitmap data nullBitmap k (i + 1) rows pos (nullbitIndex + 1)
        else
          match sliceFrom data pos, index table.ColumnType i, index table.ColumnMeta i with
          | some d, some tp, some m =>
            match decodeValue d tp m with
            | .panic => .panic
            | .error _ _ => .valueError
            | .ok (v, n) =>
              match assign rows i v with
              | none => .panic
              | some rows =>
                decodeRowsLoop table bitmap data nullBitmap k (i + 1) rows (pos + n)
                  (nullbitIndex + 1)
          | _, _, _ => .panic

/-- The method `RowsEvent.decodeRows` (lines 272-311). The result is the
event after the call and the returned `int`. The bound `int(e.ColumnCount)` of
the column loop is the count itself, `make` having panicked on a count that
does not fit in `int`. -/
def RowsEvent.decodeRows (e : RowsEvent) (data : Bytes) (table : TableMapEvent)
    (bitmap : Bytes) : Ret (RowsEvent × Nat) :=
  match makeSlice e.ColumnCount (none : Option Bytes) with
  | none => .panic
  | some rows =>
    let pos : Nat := 0
    let count := (bitCount bitmap + 7) / 8
    match slice data pos (pos + count) with
    | none => .panic
    | some nullBitmap =>
      let pos := pos + count
      match decodeRowsLoop table bitmap data nullBitmap (e.ColumnCount % 2 ^ 64) 0 rows
          pos 0 with
      | .panic => .panic
      | .valueError => .ok (e, 0)
      | .done rows pos => .ok ({ e with Rows := e.Rows ++ [rows] }, pos)

/-- The block `if e.Version == 2` of `RowsEvent.Decode` (lines 225-231) at
cursor `pos`: the 2-byte little-endian length `dataLen` and the
`int(dataLen-2)` bytes of extra data, the subtraction being the one of
`uint16`. -/
def RowsEvent.decodeExtraData (e : RowsEvent) (data : Bytes) (pos : Nat) :
    Option (RowsEvent × Nat) :=
  if e.Version = 2 then do
    let dataLen ← (sliceFrom data pos).bind littleEndianUint16
    let pos := pos + 2
    let extraLen : Nat := (dataLen + 65536 - 2) % 65536
    let extraData ← slice data pos (pos + extraLen)
    pure ({ e with ExtraData := extraData }, pos + extraLen)
  else pure (e, pos)

/-- The block `if e.NeedBitmap2` of `RowsEvent.Decode` (lines 241-244) at
cursor `pos`. -/
def RowsEvent.decodeBitmap2 (e : RowsEvent) (data : Bytes) (pos : Nat) (bitCount : Int) :
    Option (RowsEvent × Nat) :=
  if e.NeedBitmap2 then do
    let columnBitmap2 ← slice data pos (pos + bitCount)
    pure ({ e with ColumnBitmap2 := columnBitmap2 }, pos + bitCount.toNat)
  else pure (e, pos)

/-- The first steps of `RowsEvent.Decode` (lines 218-244), which can only
panic: table identifier, flags, extra data of a version 2 event, column count
and presence bitmaps. The result is the event and the cursor `pos`. -/
def RowsEvent.decodeHead (e : RowsEvent) (data : Bytes) : Option (RowsEvent × Nat) := do
  let pos : Nat := 0
  let b ← slice data 0 e.TableIDSize
  let e := { e with TableID := FixedLengthInt b }
  let pos := pos + e.TableIDSize.toNat
  let flags ← (sliceFrom data pos).bind littleEndianUint16
  let e := { e with Flags := flags }
  let pos := pos + 2
  let (e, pos) ← e.decodeExtraData data pos
  let (columnCount, _, n) ← (sliceFrom data pos).bind LengthEncodedInt
  let e := { e with ColumnCount := columnCount }
  let pos := pos + n
  let bitCount := bitmapByteSize (toInt64 e.ColumnCount)
  let columnBitmap1 ← slice data pos (pos + bitCount)
  let e := { e with ColumnBitmap1 := columnBitmap1 }
  let pos := pos + bitCount.toNat
  e.decodeBitmap2 data pos bitCount

/-- The loop `for pos < len(data)` of `RowsEvent.Decode` (lines 255-267), with
fuel: one unit per iteration, and `none` when the fuel runs out before the
loop ends. -/
def RowsEvent.rowLoop (table : TableMapEvent) (data : Bytes) :
    Nat → RowsEvent → Nat → Option (Ret RowsEvent)
  | 0, e, pos => if pos < data.length then none else some (.ok e)
  | fuel + 1, e, pos =>
    if pos < data.length then
      match (sliceFrom data pos).elim .panic (fun d => e.decodeRows d table e.ColumnBitmap1) with
      | .panic => some .panic
      | .error (e, _) err => some (.error e err)
      | .ok (e, n) =>
        let pos := pos + n
        if e.NeedBitmap2 then
          match (sliceFrom data pos).elim .panic
              (fun d => e.decodeRows d table e.ColumnBitmap2) with
          | .panic => some .panic
          | .error (e, _) err => some (.error e err)
          | .ok (e, n) => RowsEvent.rowLoop table data fuel e (pos + n)
        else RowsEvent.rowLoop table data fuel e pos
    else some (.ok e)

/-- The method `RowsEvent.Decode` (lines 217-270), with the fuel of its row
loop; `none` means the loop did not end within the fuel. -/
def RowsEvent.Decode (fuel : Nat) (e : RowsEvent) (data : Bytes) : Option (Ret RowsEvent) :=
  match e.decodeHead data with
  | none => some .panic
  | some (e, pos) =>
    match e.Tables.lookup e.TableID with
    | none => some (.error { e with Table := none } (.invalidTableId e.TableID))
    | some table => RowsEvent.rowLoop table data fuel { e with Table := some table } pos

/-- The fixed-width type tags with the byte width of their values: 1 for TINY
and YEAR, 2 for SHORT, 3 for INT24, TIME and DATE, 4 for LONG, FLOAT and
TIMESTAMP, 8 for LONGLONG, DOUBLE and DATETIME. -/
def fixedWidthTags : List (Nat × Nat) :=
  [(MYSQL_TYPE_TINY, 1), (MYSQL_TYPE_YEAR, 1), (MYSQL_TYPE_SHORT, 2),
   (MYSQL_TYPE_INT24, 3), (MYSQL_TYPE_TIME, 3), (MYSQL_TYPE_DATE, 3),
   (MYSQL_TYPE_LONG, 4), (MYSQL_TYPE_FLOAT, 4), (MYSQL_TYPE_TIMESTAMP, 4),
   (MYSQL_TYPE_LONGLONG, 8), (MYSQL_TYPE_DOUBLE, 8), (MYSQL_TYPE_DATETIME, 8)]

/-- The tags `decodeMeta` rejects: NEWDATE, ENUM, SET, TINY_BLOB, MEDIUM_BLOB
and LONG_BLOB. -/
def unsupportedTags : List Nat :=
  [MYSQL_TYPE_NEWDATE, MYSQL_TYPE_ENUM, MYSQL_TYPE_SET, MYSQL_TYPE_TINY_BLOB,
   MYSQL_TYPE_MEDIUM_BLOB, MYSQL_TYPE_LONG_BLOB]

/-- The number of metadata bytes of a type tag, in the words of the metadata
rule: 2 for STRING, NEWDECIMAL, VARCHAR, VAR_STRING and BIT, 1 for BLOB,
DOUBLE, FLOAT, GEOMETRY, TIME2, DATETIME2 and TIMESTAMP2, 0 otherwise. -/
def metaWidth (t : Nat) : Nat :=
  if t ∈ [MYSQL_TYPE_STRING, MYSQL_TYPE_NEWDECIMAL, MYSQL_TYPE_VARCHAR,
      MYSQL_TYPE_VAR_STRING, MYSQL_TYPE_BIT] then 2
  else if t ∈ [MYSQL_TYPE_BLOB, MYSQL_TYPE_DOUBLE, MYSQL_TYPE_FLOAT, MYSQL_TYPE_GEOMETRY,
      MYSQL_TYPE_TIME2, MYSQL_TYPE_DATETIME2, MYSQL_TYPE_TIMESTAMP2] then 1
  else 0

/-- The metadata value of a type tag read at offset `off` of the block, in the
words of the metadata rule: `(byte0<<8)+byte1` for STRING and NEWDECIMAL, the
little-endian `byte0 + (byte1<<8)` for VARCHAR, VAR_STRING and BIT, the byte
itself for the 1-byte tags, 0 otherwise. -/
def metaValue (t : Nat) (data : Bytes) (off : Nat) : Nat :=
  if t ∈ [MYSQL_TYPE_STRING, MYSQL_TYPE_NEWDECIMAL] then
    (data.getD off 0 <<< 8) + data.getD (off + 1) 0
  else if t ∈ [MYSQL_TYPE_VARCHAR, MYSQL_TYPE_VAR_STRING, MYSQL_TYPE_BIT] then
    data.getD off 0 + (data.getD (off + 1) 0 <<< 8)
  else if t ∈ [MYSQL_TYPE_BLOB, MYSQL_TYPE_DOUBLE, MYSQL_TYPE_FLOAT, MYSQL_TYPE_GEOMETRY,
      MYSQL_TYPE_TIME2, MYSQL_TYPE_DATETIME2, MYSQL_TYPE_TIMESTAMP2] then
    data.getD off 0
  else 0

/-- The offset at which column `i` is read: the sum of the widths of the
columns before it. -/
def metaOffset (types : List Nat) (i : Nat) : Nat :=
  ((types.take i).map metaWidth).sum

/-- Whether `bitGet` finds the presence bit of column `i` set. -/
def isPresent (bitmap : Bytes) (i : Nat) : Bool :=
  match bitGet bitmap i with
  | some g => g != 0
  | none => false

/-- The position of column `i` in the null bitmap of a row, in the words of
the row rule: the number of columns before `i` whose presence bit is set. -/
def nullBitIndex (bitmap : Bytes) (i : Nat) : Nat :=
  (List.range' 0 i).countP (isPresent bitmap)

/-- Whether bit `r` of the null bitmap `nullBitmap` is set: bit `r mod 8` of
its byte `r / 8`. -/
def isNullBit (nullBitmap : Bytes) (r : Nat) : Bool :=
  (nullBitmap.getD (r / 8) 0).testBit (r % 8)

/-- The effective length of a STRING column with metadata `m`, in the words
of the unpacking rule: for `m >= 256`, with `byte0 = m>>8` and
`byte1 = m&0xFF`, it is `byte1 | (((byte0&0x30)^0x30)<<4)` when
`byte0&0x30 != 0x30` and `m&0xFF` otherwise; for `m < 256` it is `m`. -/
def stringRealLength (m : Nat) : Nat :=
  if m ≥ 256 then
    if (m >>> 8) &&& 0x30 ≠ 0x30 then
      (m &&& 0xFF) ||| ((((m >>> 8) &&& 0x30) ^^^ 0x30) <<< 4)
    else m &&& 0xFF
  else m

/-- The effective real type of a STRING column with metadata `m`, in the words
of the unpacking rule: for `m >= 256`, with `byte0 = m>>8`, it is `byte0|0x30`
when `byte0&0x30 != 0x30` and `byte0` otherwise; for `m < 256` it stays
STRING. -/
def stringRealType (m : Nat) : Nat :=
  if m ≥ 256 then
    if (m >>> 8) &&& 0x30 ≠ 0x30 then (m >>> 8) ||| 0x30 else m >>> 8
  else MYSQL_TYPE_STRING

/-- The quotient rounded up, `⌈a / b⌉`. -/
def ceilDiv (a b : Nat) : Nat := (a + b - 1) / b

/-- The byte width of a leftover group of `d` decimal digits, in the words of
the packed-decimal rule: 0 -> 0, 1..2 -> 1, 3..4 -> 2, 5..6 -> 3, 7..8 -> 4. -/
def leftoverBytes (d : Nat) : Nat :=
  if d = 0 then 0 else if d ≤ 2 then 1 else if d ≤ 4 then 2 else if d ≤ 6 then 3 else 4

/-- The segment length of a packed decimal of precision `p` and scale `s`, in
the words of the packed-decimal rule: leftover bytes before the point, 4 bytes
for each full group of 9 integer digits, 4 bytes for each full group of 9
fractional digits, leftover bytes after the point. -/
def decimalSize (p s : Nat) : Nat :=
  leftoverBytes ((p - s) % 9) + 4 * ((p - s) / 9) + 4 * (s / 9) + leftoverBytes (s % 9)

/-- The bytes of one metadata value re-encoded by the rule of its type tag:
high byte then low byte for STRING and NEWDECIMAL, little-endian 16 bits for
VARCHAR, VAR_STRING and BIT, one byte for the 1-byte tags, nothing for the
others. -/
def encodeMetaValue (t v : Nat) : Bytes :=
  if t ∈ [MYSQL_TYPE_STRING, MYSQL_TYPE_NEWDECIMAL] then [v / 256, v % 256]
  else if t ∈ [MYSQL_TYPE_VARCHAR, MYSQL_TYPE_VAR_STRING, MYSQL_TYPE_BIT] then
    [v % 256, v / 256]
  else if t ∈ [MYSQL_TYPE_BLOB, MYSQL_TYPE_DOUBLE, MYSQL_TYPE_FLOAT, MYSQL_TYPE_GEOMETRY,
      MYSQL_TYPE_TIME2, MYSQL_TYPE_DATETIME2, MYSQL_TYPE_TIMESTAMP2] then [v]
  else []

/-- The metadata block re-encoded from the column types and their metadata
values, in column order. -/
def encodeMeta : List Nat → List Nat → Bytes
  | t :: ts, v :: vs => encodeMetaValue t v ++ encodeMeta ts vs
  | _, _ => []

/-! ## Sample events -/

/-- A table map event before decoding, with its table identifier width. -/
def emptyTableMap (tableIDSize : Int) : TableMapEvent :=
  { TableIDSize := tableIDSize, TableID := 0, Flags := 0, Schema := [], Table := [],
    ColumnCount := 0, ColumnType := [], ColumnMeta := [], NullBitmap := [] }

/-- The body of a TABLE_MAP event of a table with one TINY column: table
identifier 1 on 6 bytes, flags 1, schema "t", table "u", one column, the type
tag, an empty metadata block and the null-capability bitmap `0x00`. -/
def tinyTableMapBody : Bytes :=
  [1, 0, 0, 0, 0, 0,  1, 0,  1, 0x74, 0,  1, 0x75, 0,  1,  MYSQL_TYPE_TINY,  0,  0]

/-- A schema descriptor with the given column types and metadata values. -/
def tableOf (id : Nat) (types : Bytes) (metas : List Nat) : TableMapEvent :=
  { TableIDSize := 6, TableID := id, Flags := 1, Schema := [0x74], Table := [0x75],
    ColumnCount := types.length, ColumnType := types, ColumnMeta := metas,
    NullBitmap := List.replicate ((types.length + 7) / 8) 0 }

/-- A rows event before decoding: its version, the registry and the
`NeedBitmap2` flag, with no row image. -/
def emptyRows (version : Int) (tables : List (Nat × TableMapEvent)) (needBitmap2 : Bool) :
    RowsEvent :=
  { Version := version, TableIDSize := 6, Tables := tables, NeedBitmap2 := needBitmap2,
    Table := none, TableID := 0, Flags := 0, ExtraData := [], ColumnCount := 0,
    ColumnBitmap1 := [], ColumnBitmap2 := [], Rows := [] }

/-- The schema registry with the single table `table`, keyed by its table
identifier. -/
def registryOf (table : TableMapEvent) : List (Nat × TableMapEvent) :=
  [(table.TableID, table)]

/-- A rows event whose header has been decoded against `table`: `cols` declared
columns and the two presence bitmaps, with no row image yet. -/
def rowsAfterHead (table : TableMapEvent) (needBitmap2 : Bool) (cols : Nat)
    (bitmap1 bitmap2 : Bytes) : RowsEvent :=
  { emptyRows 1 (registryOf table) needBitmap2 with
    Table := some table, TableID := table.TableID, ColumnCount := cols,
    ColumnBitmap1 := bitmap1, ColumnBitmap2 := bitmap2 }

/-- The body of a version 1 rows event on table 1: table identifier on 6
bytes, flags 0, then the column count, the presence bitmaps and the rows. -/
def rowsBody (rest : Bytes) : Bytes := [1, 0, 0, 0, 0, 0,  0, 0] ++ rest

/-- The row images of a call of `RowsEvent.Decode` that returned success. -/
def decodedRows : Option (Ret RowsEvent) → Option (List RowImage)
  | some (.ok e) => some e.Rows
  | _ => none

/-! ## Theorems -/

theorem slice_zero (data : Bytes) (n : Nat) (h : n ≤ data.length) :
    slice data 0 n = some (data.take n) := by
  simp [slice, h]

theorem fixedWidth_ok (data : Bytes) (n : Nat) (h : n ≤ data.length) :
    fixedWidth data n = .ok (some (data.take n), n) := by
  simp [fixedWidth, slice_zero data n h]

/-- C1: on a fixed-width type tag and an input of at least `n` bytes,
`decodeValue` succeeds, for every metadata value, with length `n` and exactly
the first `n` bytes of the input, where `n` is the width of the tag in
`fixedWidthTags`; on the NULL tag it returns length 0 and no bytes. -/
theorem decodeValue_fixed_width (data : Bytes) (tp meta n : Nat)
    (htp : (tp, n) ∈ fixedWidthTags) (hlen : n ≤ data.length) :
    decodeValue data tp meta = .ok (some (data.take n), n) ∧
      decodeValue data MYSQL_TYPE_NULL meta = .ok (none, 0) := by
  refine ⟨?_, by simp [decodeValue, unpackString]⟩
  simp only [fixedWidthTags, List.mem_cons, Prod.mk.injEq, List.mem_singleton,
    List.not_mem_nil, or_false] at htp
  rcases htp with h | h | h | h | h | h | h | h | h | h | h | h <;>
    obtain ⟨rfl, rfl⟩ := h <;>
    simp [decodeValue, unpackString, fixedWidth_ok _ _ hlen]

theorem decodeValue_fixed_width_witness :
    decodeValue [0x2A, 0x01, 0x02] MYSQL_TYPE_SHORT 7 = .ok (some [0x2A, 0x01], 2) ∧
      decodeValue [0x2A, 0x01, 0x02] MYSQL_TYPE_NULL 7 = .ok (none, 0) :=
  decodeValue_fixed_width [0x2A, 0x01, 0x02] MYSQL_TYPE_SHORT 7 2 (by decide) (by decide)

theorem leUint_take_two (d : Bytes) (h : 2 ≤ d.length) :
    leUint (d.take 2) = d.getD 0 0 + 256 * d.getD 1 0 := by
  match d, h with
  | a :: b :: r, _ => simp [leUint]

theorem decodeMetaCase_value (data : Bytes) (pos t : Nat)
    (hsupp : t ∉ unsupportedTags) (hlen : pos + metaWidth t ≤ data.length)
    (hbytes : ∀ b ∈ data, b < 256) :
    decodeMetaCase data pos t = .value (metaValue t data pos) (metaWidth t) := by
  have hb : ∀ k, data.getD k 0 < 256 := by
    intro k
    by_cases hk : k < data.length
    · rw [List.getD_eq_getElem _ _ hk]; exact hbytes _ (List.getElem_mem _)
    · rw [List.getD_eq_default _ _ (by omega)]; omega
  have key2 : pos + 2 ≤ data.length →
      index data pos = some (data.getD pos 0) ∧
      index data (pos + 1) = some (data.getD (pos + 1) 0) ∧
      (sliceFrom data pos).bind littleEndianUint16 =
        some (data.getD pos 0 + (data.getD (pos + 1) 0 <<< 8)) := by
    intro h
    refine ⟨?_, ?_, ?_⟩
    · simp [index, List.getD_eq_getElem?_getD,
        List.getElem?_eq_getElem (show pos < data.length by omega)]
    · simp [index, List.getD_eq_getElem?_getD,
        List.getElem?_eq_getElem (show pos + 1 < data.length by omega)]
    · have hl : 2 ≤ (data.drop pos).length := by simp; omega
      simp only [sliceFrom, show pos ≤ data.length by omega, if_true, Option.some_bind,
        littleEndianUint16, hl, leUint_take_two _ hl]
      simp only [List.getD_eq_getElem?_getD, List.getElem?_drop, Nat.add_zero,
        Nat.shiftLeft_eq]
      congr 1
      have := hb pos; have := hb (pos + 1)
      simp only [List.getD_eq_getElem?_getD] at *
      omega
  have key1 : pos + 1 ≤ data.length → index data pos = some (data.getD pos 0) := by
    intro h
    simp [index, List.getD_eq_getElem?_getD,
      List.getElem?_eq_getElem (show pos < data.length by omega)]
  by_cases hA : t = MYSQL_TYPE_STRING ∨ t = MYSQL_TYPE_NEWDECIMAL
  · have h2 : pos + 2 ≤ data.length := by
      rcases hA with rfl | rfl <;> simpa [metaWidth] using hlen
    obtain ⟨k0, k1, -⟩ := key2 h2
    have h0 := hb pos
    have h1 := hb (pos + 1)
    rcases hA with rfl | rfl <;>
      simp [decodeMetaCase, metaValue, metaWidth, k0, k1] <;>
      (simp only [List.getD_eq_getElem?_getD, Nat.shiftLeft_eq] at h0 h1 ⊢; omega)
  by_cases hB : t = MYSQL_TYPE_VAR_STRING ∨ t = MYSQL_TYPE_VARCHAR ∨ t = MYSQL_TYPE_BIT
  · have h2 : pos + 2 ≤ data.length := by
      rcases hB with rfl | rfl | rfl <;> simpa [metaWidth] using hlen
    obtain ⟨-, -, k2⟩ := key2 h2
    rcases hB with rfl | rfl | rfl <;>
      simp [decodeMetaCase, metaValue, metaWidth, k2]
  by_cases hC : t = MYSQL_TYPE_BLOB ∨ t = MYSQL_TYPE_DOUBLE ∨ t = MYSQL_TYPE_FLOAT ∨
      t = MYSQL_TYPE_GEOMETRY ∨ t = MYSQL_TYPE_TIME2 ∨ t = MYSQL_TYPE_DATETIME2 ∨
      t = MYSQL_TYPE_TIMESTAMP2
  · have h1 : pos + 1 ≤ data.length := by
      rcases hC with rfl | rfl | rfl | rfl | rfl | rfl | rfl <;> simpa [metaWidth] using hlen
    have k1 := key1 h1
    rcases hC with rfl | rfl | rfl | rfl | rfl | rfl | rfl <;>
      simp [decodeMetaCase, metaValue, metaWidth, k1]
  simp only [unsupportedTags, List.mem_cons, List.mem_singleton, List.not_mem_nil,
    or_false, not_or] at hsupp hA hB hC
  simp [decodeMetaCase, metaValue, metaWidth, hsupp, hA, hB, hC]

theorem decodeMetaLoop_ok (data : Bytes) (hbytes : ∀ b ∈ data, b < 256) :
    ∀ (ts : List Nat) (i pos : Nat) (cm : List Nat),
      (∀ t ∈ ts, t ∉ unsupportedTags) →
      pos + (ts.map metaWidth).sum ≤ data.length →
      i + ts.length ≤ cm.length →
      ∃ cm', decodeMetaLoop data ts i pos cm = .ok cm' ∧ cm'.length = cm.length ∧
        (∀ j t, ts[j]? = some t →
          cm'[i + j]? = some (metaValue t data (pos + metaOffset ts j))) ∧
        (∀ j, j < i → cm'[j]? = cm[j]?) := by
  intro ts
  induction ts with
  | nil =>
    intro i pos cm _ _ _
    exact ⟨cm, rfl, rfl, by simp, fun _ _ => rfl⟩
  | cons t ts ih =>
    intro i pos cm hsupp hlen hi
    simp only [List.map_cons, List.sum_cons, List.length_cons] at hlen hi
    have hcase := decodeMetaCase_value data pos t (hsupp t (List.mem_cons_self _ _))
      (by omega) hbytes
    have hassign : assign cm i (metaValue t data pos) = some (cm.set i (metaValue t data pos)) := by
      simp only [assign]; rw [if_pos (by omega)]
    obtain ⟨cm', hrun, hlen', hval, hkeep⟩ :=
      ih (i + 1) (pos + metaWidth t) (cm.set i (metaValue t data pos))
        (fun u hu => hsupp u (List.mem_cons_of_mem _ hu))
        (by omega) (by simp only [List.length_set]; omega)
    refine ⟨cm', ?_, ?_, ?_, ?_⟩
    · simp only [decodeMetaLoop, hcase, hassign, hrun]
    · simpa using hlen'
    · intro j u hj
      cases j with
      | zero =>
        simp only [List.getElem?_cons_zero, Option.some.injEq] at hj
        subst hj
        rw [Nat.add_zero, hkeep i (by omega), List.getElem?_set]
        simp [metaOffset, show i < cm.length by omega]
      | succ j =>
        simp only [List.getElem?_cons_succ] at hj
        have := hval j u hj
        rw [show i + (j + 1) = i + 1 + j by omega, this]
        simp [metaOffset, Nat.add_assoc]
    · intro j hj
      rw [hkeep j (by omega), List.getElem?_set]
      simp [show i ≠ j by omega]

/-- C3: for type tags none of which is unsupported and a metadata block of
well-formed bytes long enough for them, `decodeMeta` succeeds with exactly one
metadata value per column, changes no other field, and the value of column `i`
is the one the rule of its tag (`metaValue`, of width `metaWidth`) reads at the
offset that is the sum of the widths of the columns before `i`. -/
theorem decodeMeta_sequential (e : TableMapEvent) (data : Bytes)
    (hcount : e.ColumnCount = e.ColumnType.length)
    (hfit : e.ColumnType.length < 2 ^ 63)
    (hsupp : ∀ t ∈ e.ColumnType, t ∉ unsupportedTags)
    (hlen : metaOffset e.ColumnType e.ColumnType.length ≤ data.length)
    (hbytes : ∀ b ∈ data, b < 256) :
    ∃ columnMeta, e.decodeMeta data = .ok { e with ColumnMeta := columnMeta } ∧
      columnMeta.length = e.ColumnType.length ∧
      ∀ i t, e.ColumnType[i]? = some t →
        columnMeta[i]? = some (metaValue t data (metaOffset e.ColumnType i)) := by
  have hmake : makeSlice e.ColumnCount (0 : Nat) =
      some (List.replicate e.ColumnType.length 0) := by
    have : e.ColumnType.length % 2 ^ 64 = e.ColumnType.length := Nat.mod_eq_of_lt (by omega)
    simp only [makeSlice, hcount, this]
    rw [if_pos hfit]
  obtain ⟨cm', hrun, hlen', hval, -⟩ :=
    decodeMetaLoop_ok data hbytes e.ColumnType 0 0 (List.replicate e.ColumnType.length 0)
      hsupp (by simpa [metaOffset] using hlen) (by simp)
  refine ⟨cm', ?_, by simpa using hlen', ?_⟩
  · simp only [TableMapEvent.decodeMeta, hmake, hrun]
  · intro i t hi
    simpa using hval i t hi

theorem decodeMeta_sequential_witness :
    ∃ columnMeta,
      TableMapEvent.decodeMeta
        { TableIDSize := 6, TableID := 1, Flags := 0, Schema := [], Table := [],
          ColumnCount := 4,
          ColumnType := [MYSQL_TYPE_TINY, MYSQL_TYPE_STRING, MYSQL_TYPE_VARCHAR,
            MYSQL_TYPE_BLOB],
          ColumnMeta := [], NullBitmap := [] } [0xfe, 0x14, 0x2c, 0x01, 0x02] =
        .ok { TableIDSize := 6, TableID := 1, Flags := 0, Schema := [], Table := [],
              ColumnCount := 4,
              ColumnType := [MYSQL_TYPE_TINY, MYSQL_TYPE_STRING, MYSQL_TYPE_VARCHAR,
                MYSQL_TYPE_BLOB],
              ColumnMeta := columnMeta, NullBitmap := [] } ∧
      columnMeta.length = 4 ∧
      ∀ i t, [MYSQL_TYPE_TINY, MYSQL_TYPE_STRING, MYSQL_TYPE_VARCHAR,
          MYSQL_TYPE_BLOB][i]? = some t →
        columnMeta[i]? = some (metaValue t [0xfe, 0x14, 0x2c, 0x01, 0x02]
          (metaOffset [MYSQL_TYPE_TINY, MYSQL_TYPE_STRING, MYSQL_TYPE_VARCHAR,
            MYSQL_TYPE_BLOB] i)) :=
  decodeMeta_sequential
    { TableIDSize := 6, TableID := 1, Flags := 0, Schema := [], Table := [],
      ColumnCount := 4,
      ColumnType := [MYSQL_TYPE_TINY, MYSQL_TYPE_STRING, MYSQL_TYPE_VARCHAR,
        MYSQL_TYPE_BLOB],
      ColumnMeta := [], NullBitmap := [] } [0xfe, 0x14, 0x2c, 0x01, 0x02]
    rfl (by decide) (by decide) (by decide) (by decide)

example :
    TableMapEvent.decodeMeta
        { TableIDSize := 6, TableID := 1, Flags := 0, Schema := [], Table := [],
          ColumnCount := 4,
          ColumnType := [MYSQL_TYPE_TINY, MYSQL_TYPE_STRING, MYSQL_TYPE_VARCHAR,
            MYSQL_TYPE_BLOB],
          ColumnMeta := [], NullBitmap := [] } [0xfe, 0x14, 0x2c, 0x01, 0x02] =
        .ok { TableIDSize := 6, TableID := 1, Flags := 0, Schema := [], Table := [],
              ColumnCount := 4,
              ColumnType := [MYSQL_TYPE_TINY, MYSQL_TYPE_STRING, MYSQL_TYPE_VARCHAR,
                MYSQL_TYPE_BLOB],
              ColumnMeta := [0, 0xfe14, 0x012c, 2], NullBitmap := [] } := by decide

theorem slice_some {data : Bytes} {lo hi : Int} {v : Bytes} (h : slice data lo hi = some v) :
    0 ≤ lo ∧ lo ≤ hi ∧ hi ≤ data.length ∧ (v.length : Int) = hi - lo ∧
      v = (data.drop lo.toNat).take (hi.toNat - lo.toNat) := by
  unfold slice at h
  split at h
  · rename_i hc
    simp only [Option.some.injEq] at h
    subst h
    refine ⟨hc.1, hc.2.1, hc.2.2, ?_, rfl⟩
    simp only [List.length_take, List.length_drop]
    omega
  · simp at h

theorem sliceFrom_some {data : Bytes} {lo : Nat} {v : Bytes} (h : sliceFrom data lo = some v) :
    lo ≤ data.length ∧ v = data.drop lo := by
  unfold sliceFrom at h
  split at h
  · simp only [Option.some.injEq] at h
    exact ⟨by assumption, h.symm⟩
  · simp at h

theorem LengthEncodedInt_some {b : Bytes} {num : Nat} {isNull : Bool} {n : Nat}
    (h : LengthEncodedInt b = some (num, isNull, n)) :
    num < 2 ^ 64 ∧ 1 ≤ n ∧ n ≤ b.length := by
  unfold LengthEncodedInt at h
  split at h
  · simp at h
  · rename_i b0 hb0
    have hpos : 1 ≤ b.length := by
      simp only [index] at hb0
      have := (List.getElem?_eq_some_iff.mp hb0).1
      omega
    split_ifs at h <;> simp only [Option.some.injEq, Prod.mk.injEq] at h <;>
      obtain ⟨rfl, -, rfl⟩ := h <;>
      refine ⟨?_, by omega, by omega⟩ <;>
      first
        | exact Nat.mod_lt _ (by norm_num)
        | norm_num

theorem toInt64_nonneg {c : Nat} (hc : c < 2 ^ 64) (h : 0 ≤ toInt64 c) :
    toInt64 c = c ∧ c < 2 ^ 63 := by
  unfold toInt64 at *
  omega

theorem decodeHead_some {e : TableMapEvent} {data : Bytes} {e1 : TableMapEvent} {pos : Nat}
    (h : e.decodeHead data = some (e1, pos)) :
    e1.ColumnType.length = e1.ColumnCount ∧ e1.ColumnCount < 2 ^ 63 ∧
      pos ≤ data.length := by
  simp only [TableMapEvent.decodeHead, bind, Option.bind_eq_some, pure] at h
  obtain ⟨_, _, _, _, _, _, _, _, _, _, _, _, ⟨cnt, isNull, n⟩, ⟨_, _, hcnt⟩, ct, hct, h⟩ := h
  simp only [Option.some.injEq, Prod.mk.injEq] at h
  obtain ⟨rfl, rfl⟩ := h
  obtain ⟨hnum, -, -⟩ := LengthEncodedInt_some hcnt
  obtain ⟨h0, h1, h2, h3, -⟩ := slice_some hct
  simp only at h1 h2 h3 ⊢
  obtain ⟨h4, h5⟩ := toInt64_nonneg hnum (by omega)
  refine ⟨?_, h5, ?_⟩ <;> omega

theorem decodeMetaLoop_length (data : Bytes) :
    ∀ (ts : List Nat) (i pos : Nat) (cm cm' : List Nat),
      decodeMetaLoop data ts i pos cm = .ok cm' → cm'.length = cm.length := by
  intro ts
  induction ts with
  | nil =>
    intro i pos cm cm' h
    simp only [decodeMetaLoop, Ret.ok.injEq] at h
    rw [h]
  | cons t ts ih =>
    intro i pos cm cm' h
    simp only [decodeMetaLoop] at h
    split at h
    · simp at h
    · simp at h
    · split at h
      · simp at h
      · rename_i cm1 hassign
        have h1 := ih _ _ _ _ h
        simp only [assign] at hassign
        split at hassign
        · simp only [Option.some.injEq] at hassign
          rw [h1, ← hassign, List.length_set]
        · simp at hassign

theorem decodeMeta_ok {e e' : TableMapEvent} {data : Bytes}
    (h : e.decodeMeta data = .ok e') :
    ∃ cm, e' = { e with ColumnMeta := cm } ∧ cm.length = e.ColumnCount % 2 ^ 64 := by
  simp only [TableMapEvent.decodeMeta] at h
  split at h
  · simp at h
  · rename_i cm0 hmake
    split at h
    · simp at h
    · simp at h
    · rename_i cm hloop
      simp only [Ret.ok.injEq] at h
      refine ⟨cm, h.symm, ?_⟩
      rw [decodeMetaLoop_length _ _ _ _ _ _ hloop]
      simp only [makeSlice] at hmake
      split at hmake
      · simp only [Option.some.injEq] at hmake
        rw [← hmake, List.length_replicate]
      · simp at hmake

theorem tdiv_eight_neg {a : Int} (ha : a ≤ -8) : Int.tdiv a 8 < 0 := by
  have h : a = -(-a) := by omega
  rw [h, Int.neg_tdiv, Int.tdiv_eq_ediv (by omega) (by omega)]
  omega

theorem bitmapByteSize_eq {c len : Nat} (hc : c < 2 ^ 63)
    (h : (len : Int) = bitmapByteSize (toInt64 c)) : len = (c + 7) / 8 := by
  have hc1 : toInt64 (c : Int) = c := by unfold toInt64; omega
  rw [hc1] at h
  unfold bitmapByteSize at h
  by_cases hlt : c + 7 < 2 ^ 63
  · have hc2 : toInt64 ((c : Int) + 7) = c + 7 := by unfold toInt64; omega
    rw [hc2, Int.tdiv_eq_ediv (by omega) (by omega)] at h
    omega
  · have hc2 : toInt64 ((c : Int) + 7) ≤ -8 := by unfold toInt64; omega
    have := tdiv_eight_neg hc2
    omega

theorem bitmapByteSize_small {c : Nat} (hc : c + 7 < 2 ^ 63) :
    bitmapByteSize (toInt64 c) = ((c + 7) / 8 : Nat) := by
  have hc1 : toInt64 (c : Int) = c := by unfold toInt64; omega
  have hc2 : toInt64 ((c : Int) + 7) = c + 7 := by unfold toInt64; omega
  rw [hc1]
  unfold bitmapByteSize
  rw [hc2, Int.tdiv_eq_ediv (by omega) (by omega)]
  omega

theorem LengthEnodedString_ok {b : Bytes} {metaData : Option Bytes} {isNull : Bool} {n : Nat}
    (h : LengthEnodedString b = .ok (metaData, isNull, n)) : n ≤ b.length := by
  unfold LengthEnodedString at h
  split at h
  · simp at h
  · rename_i num isNull0 n0 hint
    obtain ⟨-, -, hn0⟩ := LengthEncodedInt_some hint
    split_ifs at h with h1 h2
    · simp only [Ret.ok.injEq, Prod.mk.injEq] at h
      omega
    · simp only [Ret.ok.injEq, Prod.mk.injEq] at h
      omega

/-- C4 (counterexample): on the body of a table with one STRING column, an
empty metadata block and 3 bytes after it, where `ceil(ColumnCount/8)` is 1,
`Decode` does not return an error: `decodeMeta` reads the two metadata bytes of
the STRING column in the empty block (line 136) and `Decode` panics. -/
theorem Decode_short_metadata_panics :
    (emptyTableMap 6).decodeHead
        [1, 0, 0, 0, 0, 0,  1, 0,  1, 0x74, 0,  1, 0x75, 0,  1,  MYSQL_TYPE_STRING,
          0,  0, 0, 0] =
      some ({ emptyTableMap 6 with
        TableID := 1, Flags := 1, Schema := [0x74], Table := [0x75], ColumnCount := 1,
        ColumnType := [MYSQL_TYPE_STRING] }, 16) ∧
    LengthEnodedString
        (([1, 0, 0, 0, 0, 0,  1, 0,  1, 0x74, 0,  1, 0x75, 0,  1,  MYSQL_TYPE_STRING,
          0,  0, 0, 0] : Bytes).drop 16) = .ok (none, false, 1) ∧
    ([1, 0, 0, 0, 0, 0,  1, 0,  1, 0x74, 0,  1, 0x75, 0,  1,  MYSQL_TYPE_STRING,
          0,  0, 0, 0] : Bytes).length - (16 + 1) = 3 ∧
    (1 + 7) / 8 = 1 ∧
    (emptyTableMap 6).Decode
        [1, 0, 0, 0, 0, 0,  1, 0,  1, 0x74, 0,  1, 0x75, 0,  1,  MYSQL_TYPE_STRING,
          0,  0, 0, 0] = .panic := by
  decide

/-- C4 (amended): every TABLE_MAP body on which `Decode` returns success gives
`len(ColumnType) = len(ColumnMeta) = ColumnCount` and
`len(NullBitmap) = ceil(ColumnCount/8)`; and on every body whose first steps
delimit the metadata block (`decodeHead` and the length-encoded metadata string
of `n` bytes return), if the number of bytes remaining after the metadata block
is not `ceil(ColumnCount/8)`, `Decode` returns no descriptor: it returns the
error `io.EOF` when `decodeMeta` returns success, the error of `decodeMeta`
when `decodeMeta` returns one, and it panics when `decodeMeta` panics. -/
theorem TableMapEvent_Decode_lengths (e : TableMapEvent) (data : Bytes) :
    (∀ e', e.Decode data = .ok e' →
      e'.ColumnType.length = e'.ColumnCount ∧ e'.ColumnMeta.length = e'.ColumnCount ∧
        e'.NullBitmap.length = (e'.ColumnCount + 7) / 8) ∧
    (∀ e1 pos metaData isNull n,
      e.decodeHead data = some (e1, pos) →
      LengthEnodedString (data.drop pos) = .ok (metaData, isNull, n) →
      data.length - (pos + n) ≠ (e1.ColumnCount + 7) / 8 →
      (∀ e', e.Decode data ≠ .ok e') ∧
      (∀ e2, e1.decodeMeta (metaData.getD []) = .ok e2 → e.Decode data = .error e2 .eof) ∧
      (∀ e2 err, e1.decodeMeta (metaData.getD []) = .error e2 err →
        e.Decode data = .error e2 err) ∧
      (e1.decodeMeta (metaData.getD []) = .panic → e.Decode data = .panic)) := by
  constructor
  · intro e' h
    simp only [TableMapEvent.Decode] at h
    split at h
    · simp at h
    · rename_i e1 pos hhead
      obtain ⟨hct, hcc, hpos⟩ := decodeHead_some hhead
      split at h
      · simp at h
      · simp at h
      · rename_i metaData isNull n hstr
        split at h
        · simp at h
        · simp at h
        · rename_i e2 hmeta
          obtain ⟨cm, rfl, hcm⟩ := decodeMeta_ok hmeta
          simp only at h
          split at h
          · simp at h
          · rename_i rest hrest
            split at h
            · simp at h
            · rename_i hsize
              simp only [ne_eq, Decidable.not_not] at hsize
              simp only [Ret.ok.injEq] at h
              subst h
              have := bitmapByteSize_eq hcc hsize
              refine ⟨hct, ?_, this⟩
              simp only [hcm]
              omega
  · intro e1 pos metaData isNull n hhead hstr hne
    obtain ⟨hct, hcc, hpos⟩ := decodeHead_some hhead
    have hfrom : sliceFrom data pos = some (data.drop pos) := by
      simp only [sliceFrom]; rw [if_pos hpos]
    have hok : ∀ e2, e1.decodeMeta (metaData.getD []) = .ok e2 →
        e.Decode data = .error e2 .eof := by
      intro e2 hmeta2
      obtain ⟨cm, rfl, hcm⟩ := decodeMeta_ok hmeta2
      simp only [TableMapEvent.Decode, hhead, hfrom, Option.elim, hstr, hmeta2]
      split
      · rename_i hnone
        have hn := LengthEnodedString_ok hstr
        simp only [List.length_drop] at hn
        simp only [sliceFrom] at hnone
        rw [if_pos (by omega)] at hnone
        simp at hnone
      · rename_i rest hrest
        obtain ⟨hle, rfl⟩ := sliceFrom_some hrest
        split
        · rfl
        · rename_i hsize
          simp only [ne_eq, Decidable.not_not] at hsize
          have := bitmapByteSize_eq hcc hsize
          simp only [List.length_drop] at this
          exact absurd this hne
    have herr : ∀ e2 err, e1.decodeMeta (metaData.getD []) = .error e2 err →
        e.Decode data = .error e2 err := by
      intro e2 err hmeta2
      simp only [TableMapEvent.Decode, hhead, hfrom, Option.elim, hstr, hmeta2]
    have hpanic : e1.decodeMeta (metaData.getD []) = .panic → e.Decode data = .panic := by
      intro hmeta2
      simp only [TableMapEvent.Decode, hhead, hfrom, Option.elim, hstr, hmeta2]
    refine ⟨?_, hok, herr, hpanic⟩
    intro e' h
    cases hmeta : e1.decodeMeta (metaData.getD []) with
    | ok e2 => rw [hok e2 hmeta] at h; exact absurd h (by simp)
    | error e2 err => rw [herr e2 err hmeta] at h; exact absurd h (by simp)
    | panic => rw [hpanic hmeta] at h; exact absurd h (by simp)

theorem RowsEvent_decodeExtraData_keeps {e e1 : RowsEvent} {data : Bytes} {pos pos1 : Nat}
    (h : e.decodeExtraData data pos = some (e1, pos1)) :
    e1.Rows = e.Rows ∧ e1.Tables = e.Tables ∧ e1.NeedBitmap2 = e.NeedBitmap2 ∧
      e1.TableID = e.TableID := by
  unfold RowsEvent.decodeExtraData at h
  split at h
  · simp only [bind, Option.bind_eq_some, pure, Option.some.injEq, Prod.mk.injEq] at h
    obtain ⟨_, _, _, _, rfl, _⟩ := h
    exact ⟨rfl, rfl, rfl, rfl⟩
  · simp only [pure, Option.some.injEq, Prod.mk.injEq] at h
    obtain ⟨rfl, _⟩ := h
    exact ⟨rfl, rfl, rfl, rfl⟩

theorem RowsEvent_decodeBitmap2_keeps {e e1 : RowsEvent} {data : Bytes} {pos pos1 : Nat}
    {bitCount : Int} (h : e.decodeBitmap2 data pos bitCount = some (e1, pos1)) :
    e1.Rows = e.Rows ∧ e1.Tables = e.Tables ∧ e1.NeedBitmap2 = e.NeedBitmap2 ∧
      e1.TableID = e.TableID := by
  unfold RowsEvent.decodeBitmap2 at h
  split at h
  · simp only [bind, Option.bind_eq_some, pure, Option.some.injEq, Prod.mk.injEq] at h
    obtain ⟨_, _, rfl, _⟩ := h
    exact ⟨rfl, rfl, rfl, rfl⟩
  · simp only [pure, Option.some.injEq, Prod.mk.injEq] at h
    obtain ⟨rfl, _⟩ := h
    exact ⟨rfl, rfl, rfl, rfl⟩

theorem RowsEvent_decodeHead_keeps {e e1 : RowsEvent} {data : Bytes} {pos : Nat}
    (h : e.decodeHead data = some (e1, pos)) :
    e1.Rows = e.Rows ∧ e1.Tables = e.Tables ∧ e1.NeedBitmap2 = e.NeedBitmap2 := by
  simp only [RowsEvent.decodeHead, bind, Option.bind_eq_some, pure] at h
  obtain ⟨_, _, _, _, ⟨e2, pos2⟩, hextra, _, _, _, _, hbm⟩ := h
  obtain ⟨h1, h2, h3, -⟩ := RowsEvent_decodeExtraData_keeps hextra
  obtain ⟨h4, h5, h6, -⟩ := RowsEvent_decodeBitmap2_keeps hbm
  simp only at h1 h2 h3 h4 h5 h6
  exact ⟨h4.trans h1, h5.trans h2, h6.trans h3⟩

/-- C7: on every Rows event body whose first steps run without a panic (the
header is well formed) and whose decoded table identifier is not a key of the
`Tables` registry, `RowsEvent.Decode` returns the invalid-table-id error,
whatever the fuel of the row loop, and `e.Rows` is the same after the call as
before it. -/
theorem RowsEvent_Decode_unknown_table (fuel : Nat) (e e1 : RowsEvent) (data : Bytes)
    (pos : Nat) (hhead : e.decodeHead data = some (e1, pos))
    (hkey : e.Tables.lookup e1.TableID = none) :
    ∃ e2, RowsEvent.Decode fuel e data = some (.error e2 (.invalidTableId e1.TableID)) ∧
      e2.Rows = e.Rows := by
  obtain ⟨hrows, htables, -⟩ := RowsEvent_decodeHead_keeps hhead
  refine ⟨{ e1 with Table := none }, ?_, hrows⟩
  simp only [RowsEvent.Decode, hhead, htables, hkey]

theorem RowsEvent_Decode_unknown_table_witness :
    ∃ e2, RowsEvent.Decode 3 (emptyRows 1 (registryOf (tableOf 1 [MYSQL_TYPE_TINY] [0])) false)
        [7, 0, 0, 0, 0, 0,  0, 0,  1,  0x01,  0x00, 0x2A] =
          some (.error e2 (.invalidTableId 7)) ∧
      e2.Rows = [] :=
  RowsEvent_Decode_unknown_table 3
    (emptyRows 1 (registryOf (tableOf 1 [MYSQL_TYPE_TINY] [0])) false)
    { emptyRows 1 (registryOf (tableOf 1 [MYSQL_TYPE_TINY] [0])) false with
      TableID := 7, ColumnCount := 1, ColumnBitmap1 := [0x01] }
    [7, 0, 0, 0, 0, 0,  0, 0,  1,  0x01,  0x00, 0x2A] 10 (by decide) (by decide)

theorem TableMapEvent_Decode_lengths_witness :
    ((emptyTableMap 6).Decode tinyTableMapBody = .ok (tableOf 1 [MYSQL_TYPE_TINY] [0]) ∧
      (tableOf 1 [MYSQL_TYPE_TINY] [0]).ColumnType.length = 1 ∧
      (tableOf 1 [MYSQL_TYPE_TINY] [0]).ColumnMeta.length = 1 ∧
      (tableOf 1 [MYSQL_TYPE_TINY] [0]).NullBitmap.length = (1 + 7) / 8) ∧
    (emptyTableMap 6).Decode (tinyTableMapBody ++ [0]) =
      .error { tableOf 1 [MYSQL_TYPE_TINY] [0] with NullBitmap := [] } .eof :=
  ⟨⟨by decide,
    (TableMapEvent_Decode_lengths (emptyTableMap 6) tinyTableMapBody).1
      (tableOf 1 [MYSQL_TYPE_TINY] [0]) (by decide)⟩,
   ((TableMapEvent_Decode_lengths (emptyTableMap 6) (tinyTableMapBody ++ [0])).2
      { tableOf 1 [MYSQL_TYPE_TINY] [0] with ColumnMeta := [], NullBitmap := [] } 16
      none false 1 (by decide) (by decide) (by decide)).2.1
      { tableOf 1 [MYSQL_TYPE_TINY] [0] with NullBitmap := [] } (by decide)⟩

theorem rowLoop_stuck (table : TableMapEvent) (data : Bytes) (e : RowsEvent) (pos : Nat)
    (hpos : pos < data.length)
    (h1 : e.decodeRows (data.drop pos) table e.ColumnBitmap1 = .ok (e, 0))
    (h2 : e.NeedBitmap2 = true →
      e.decodeRows (data.drop pos) table e.ColumnBitmap2 = .ok (e, 0)) :
    ∀ fuel, RowsEvent.rowLoop table data fuel e pos = none := by
  have hfrom : sliceFrom data pos = some (data.drop pos) := by
    simp only [sliceFrom]; rw [if_pos (by omega)]
  intro fuel
  induction fuel with
  | zero => simp only [RowsEvent.rowLoop]; rw [if_pos hpos]
  | succ fuel ih =>
    simp only [RowsEvent.rowLoop]
    rw [if_pos hpos]
    simp only [hfrom, Option.elim, h1, Nat.add_zero]
    by_cases hb : e.NeedBitmap2 = true
    · simp only [hb, if_true, h2 hb, Nat.add_zero, ih]
    · simp only [hb, ih]
      simp

/-- C2 (failing input): on a one-column schema whose column has the type tag
DECIMAL, which `decodeValue` does not handle, with the column present and not
null, `decodeRows` returns success with the consumed-byte count 0 and appends
no image, although the null bitmap alone is 1 byte long. -/
theorem decodeRows_count_zero_on_value_error :
    (rowsAfterHead (tableOf 1 [MYSQL_TYPE_DECIMAL] [0]) false 1 [0x01] []).decodeRows
        [0x00, 0x2A] (tableOf 1 [MYSQL_TYPE_DECIMAL] [0]) [0x01] =
      .ok (rowsAfterHead (tableOf 1 [MYSQL_TYPE_DECIMAL] [0]) false 1 [0x01] [], 0) ∧
    (bitCount [0x01] + 7) / 8 = 1 ∧
    decodeValue [0x2A] MYSQL_TYPE_DECIMAL 0 =
      .error (none, 0) (.unsupportType MYSQL_TYPE_DECIMAL) := by
  decide

/-- C5 (failing input): on a one-column schema whose column is a BLOB with
metadata 0, `decodeValue` returns the invalid-packlen error, but `decodeRows`
returns a nil error (with count 0), and `RowsEvent.Decode` of the enclosing
event returns no error either: its row loop never ends. -/
theorem decodeRows_swallows_value_error :
    decodeValue [0x2A] MYSQL_TYPE_BLOB 0 = .error (none, 0) (.invalidBlobPacklen 0) ∧
    (rowsAfterHead (tableOf 1 [MYSQL_TYPE_BLOB] [0]) false 1 [0x01] []).decodeRows
        [0x00, 0x2A] (tableOf 1 [MYSQL_TYPE_BLOB] [0]) [0x01] =
      .ok (rowsAfterHead (tableOf 1 [MYSQL_TYPE_BLOB] [0]) false 1 [0x01] [], 0) ∧
    ∀ fuel, RowsEvent.Decode fuel
        (emptyRows 1 (registryOf (tableOf 1 [MYSQL_TYPE_BLOB] [0])) false)
        (rowsBody [1,  0x01,  0x00, 0x2A]) = none := by
  refine ⟨by decide, by decide, fun fuel => ?_⟩
  have hhead : (emptyRows 1 (registryOf (tableOf 1 [MYSQL_TYPE_BLOB] [0])) false).decodeHead
      (rowsBody [1,  0x01,  0x00, 0x2A]) =
      some ({ emptyRows 1 (registryOf (tableOf 1 [MYSQL_TYPE_BLOB] [0])) false with
        TableID := 1, ColumnCount := 1, ColumnBitmap1 := [0x01] }, 10) := by decide
  simp only [RowsEvent.Decode, hhead]
  exact rowLoop_stuck _ _ _ _ (by decide) (by decide) (by decide) fuel

/-- C6 (failing input): on an update event over a one-column schema whose
column has the type tag GEOMETRY, which `decodeValue` does not handle, each row
pass returns without an error and consumes 0 bytes, so the cursor of the row
loop of `RowsEvent.Decode` never advances: whatever the fuel, the loop does
not end. -/
theorem rowLoop_does_not_advance :
    (rowsAfterHead (tableOf 1 [MYSQL_TYPE_GEOMETRY] [0]) true 1 [0x01] [0x01]).decodeRows
        [0x00, 0x2A] (tableOf 1 [MYSQL_TYPE_GEOMETRY] [0]) [0x01] =
      .ok (rowsAfterHead (tableOf 1 [MYSQL_TYPE_GEOMETRY] [0]) true 1 [0x01] [0x01], 0) ∧
    ∀ fuel, RowsEvent.Decode fuel
        (emptyRows 1 (registryOf (tableOf 1 [MYSQL_TYPE_GEOMETRY] [0])) true)
        (rowsBody [1,  0x01,  0x01,  0x00, 0x2A]) = none := by
  refine ⟨by decide, fun fuel => ?_⟩
  have hhead : (emptyRows 1 (registryOf (tableOf 1 [MYSQL_TYPE_GEOMETRY] [0])) true).decodeHead
      (rowsBody [1,  0x01,  0x01,  0x00, 0x2A]) =
      some ({ emptyRows 1 (registryOf (tableOf 1 [MYSQL_TYPE_GEOMETRY] [0])) true with
        TableID := 1, ColumnCount := 1, ColumnBitmap1 := [0x01], ColumnBitmap2 := [0x01] },
        11) := by decide
  simp only [RowsEvent.Decode, hhead]
  exact rowLoop_stuck _ _ _ _ (by decide) (by decide) (fun _ => by decide) fuel

theorem decodeRows_zero_columns (e : RowsEvent) (data : Bytes) (table : TableMapEvent)
    (h : e.ColumnCount = 0) :
    e.decodeRows data table [] = .ok ({ e with Rows := e.Rows ++ [[]] }, 0) := by
  have hs : slice data ((0 : Nat) : Int) (((0 : Nat) : Int) + ((0 : Nat) : Int)) = some [] := by
    simp [slice]
  have ht : 0 % 2 ^ 64 = 0 := by decide
  have hm : makeSlice 0 (none : Option Bytes) = some [] := by decide
  have hb : (bitCount [] + 7) / 8 = 0 := by decide
  unfold RowsEvent.decodeRows
  rw [h, hm]
  simp only [hb, hs, ht]
  rfl

/-- The row loop does not end either on an event that declares zero columns
and has a byte left after its header: each row pass appends an empty image and
consumes 0 bytes. -/
theorem rowLoop_zero_columns (fuel : Nat) :
    RowsEvent.Decode fuel (emptyRows 1 (registryOf (tableOf 1 [] [])) false)
      (rowsBody [0,  0x00]) = none := by
  have hhead : (emptyRows 1 (registryOf (tableOf 1 [] [])) false).decodeHead
      (rowsBody [0,  0x00]) =
      some ({ emptyRows 1 (registryOf (tableOf 1 [] [])) false with TableID := 1 }, 9) := by
    decide
  have hloop : ∀ (fuel : Nat) (e : RowsEvent), e.ColumnCount = 0 → e.ColumnBitmap1 = [] →
      e.NeedBitmap2 = false →
      RowsEvent.rowLoop (tableOf 1 [] []) (rowsBody [0,  0x00]) fuel e 9 = none := by
    intro fuel
    induction fuel with
    | zero => intro e _ _ _; rfl
    | succ fuel ih =>
      intro e hc hb hn
      have hlt : 9 < (rowsBody [0,  0x00]).length := by decide
      have hfrom : sliceFrom (rowsBody [0,  0x00]) 9 = some [0x00] := by decide
      simp only [RowsEvent.rowLoop]
      rw [if_pos hlt]
      rw [hfrom]
      simp only [Option.elim]
      rw [hb, decodeRows_zero_columns e [0x00] (tableOf 1 [] []) hc]
      simp only [hn]
      exact ih _ hc hb rfl
  simp only [RowsEvent.Decode, hhead]
  exact hloop fuel _ rfl rfl rfl

/-- C9 (failing input): on nine TINY columns of which only the first eight are
present, with row bytes that hold the 1-byte null bitmap and the eight values,
`decodeRows` panics: at the absent ninth column it reads the null bitmap at
index 1, beyond its single byte. It panics likewise on two columns none of
which is present, where the null bitmap is empty and is read at index 0. -/
theorem decodeRows_reads_past_null_bitmap :
    (rowsAfterHead (tableOf 1 (List.replicate 9 MYSQL_TYPE_TINY) (List.replicate 9 0))
        false 9 [0xFF, 0x00] []).decodeRows
        [0x00, 1, 2, 3, 4, 5, 6, 7, 8]
        (tableOf 1 (List.replicate 9 MYSQL_TYPE_TINY) (List.replicate 9 0)) [0xFF, 0x00] =
      .panic ∧
    (bitCount [0xFF, 0x00] + 7) / 8 = 1 ∧
    (rowsAfterHead (tableOf 1 [MYSQL_TYPE_TINY, MYSQL_TYPE_TINY] [0, 0])
        false 2 [0x00] []).decodeRows []
        (tableOf 1 [MYSQL_TYPE_TINY, MYSQL_TYPE_TINY] [0, 0]) [0x00] = .panic ∧
    (bitCount [0x00] + 7) / 8 = 0 := by
  decide

/-- C10 (failing input): on an update event (`NeedBitmap2` set) over the
columns TINY and GEOMETRY, with `ColumnBitmap1 = 0x03` and
`ColumnBitmap2 = 0x01`, the pass against `ColumnBitmap1` leaves at the error
of the GEOMETRY column with a nil error and no image, the pass against
`ColumnBitmap2` decodes the same bytes, and `Decode` succeeds with a single
image, the one decoded against `ColumnBitmap2`. -/
theorem Decode_update_odd_images :
    decodedRows (RowsEvent.Decode 1
        (emptyRows 1 (registryOf (tableOf 1 [MYSQL_TYPE_TINY, MYSQL_TYPE_GEOMETRY] [0, 0])) true)
        (rowsBody [2,  0x03,  0x01,  0x00, 0x2A])) = some [[some [0x2A], none]] ∧
    (rowsAfterHead (tableOf 1 [MYSQL_TYPE_TINY, MYSQL_TYPE_GEOMETRY] [0, 0]) true 2
        [0x03] [0x01]).decodeRows [0x00, 0x2A]
        (tableOf 1 [MYSQL_TYPE_TINY, MYSQL_TYPE_GEOMETRY] [0, 0]) [0x03] =
      .ok (rowsAfterHead (tableOf 1 [MYSQL_TYPE_TINY, MYSQL_TYPE_GEOMETRY] [0, 0]) true 2
        [0x03] [0x01], 0) ∧
    (rowsAfterHead (tableOf 1 [MYSQL_TYPE_TINY, MYSQL_TYPE_GEOMETRY] [0, 0]) true 2
        [0x03] [0x01]).decodeRows [0x00, 0x2A]
        (tableOf 1 [MYSQL_TYPE_TINY, MYSQL_TYPE_GEOMETRY] [0, 0]) [0x01] =
      .ok ({ rowsAfterHead (tableOf 1 [MYSQL_TYPE_TINY, MYSQL_TYPE_GEOMETRY] [0, 0]) true 2
        [0x03] [0x01] with Rows := [[some [0x2A], none]] }, 2) := by
  decide

/-- C8 (counterexample): over the schema (TINY, TINY), `decodeRows` appends
the same image, a segment followed by a nil entry, against the presence bitmap
`0x01` (second column absent, population count 1) and against the presence
bitmap `0x03` with the null bitmap `0x02` (second column null, population
count 2): the entries carry no absent or null tag, and no count of the entries
of the image equals the population count in both cases. -/
theorem decodeRows_image_has_no_tags :
    (rowsAfterHead (tableOf 1 [MYSQL_TYPE_TINY, MYSQL_TYPE_TINY] [0, 0]) false 2
        [0x01] []).decodeRows [0x00, 0x2A]
        (tableOf 1 [MYSQL_TYPE_TINY, MYSQL_TYPE_TINY] [0, 0]) [0x01] =
      .ok ({ rowsAfterHead (tableOf 1 [MYSQL_TYPE_TINY, MYSQL_TYPE_TINY] [0, 0]) false 2
        [0x01] [] with Rows := [[some [0x2A], none]] }, 2) ∧
    (rowsAfterHead (tableOf 1 [MYSQL_TYPE_TINY, MYSQL_TYPE_TINY] [0, 0]) false 2
        [0x03] []).decodeRows [0x02, 0x2A]
        (tableOf 1 [MYSQL_TYPE_TINY, MYSQL_TYPE_TINY] [0, 0]) [0x03] =
      .ok ({ rowsAfterHead (tableOf 1 [MYSQL_TYPE_TINY, MYSQL_TYPE_TINY] [0, 0]) false 2
        [0x03] [] with Rows := [[some [0x2A], none]] }, 2) ∧
    bitCount [0x01] = 1 ∧ bitCount [0x03] = 2 := by
  decide

theorem countP_set_le {α : Type} (p : α → Bool) (l : List α) (i : Nat) (a : α) :
    (l.set i a).countP p ≤ l.countP p + 1 := by
  by_cases h : i < l.length
  · rw [List.countP_set p l i a h]
    split <;> split <;> omega
  · rw [List.set_eq_of_length_le (by omega)]
    omega

theorem assign_some {α : Type} {xs ys : List α} {i : Nat} {v : α}
    (h : assign xs i v = some ys) : ys = xs.set i v := by
  simp only [assign] at h
  split at h
  · simp only [Option.some.injEq] at h
    exact h.symm
  · simp at h

theorem decodeRowsLoop_done (table : TableMapEvent) (bitmap data nullBitmap : Bytes) :
    ∀ (k i : Nat) (rows : RowImage) (pos nullbitIndex : Nat) (rows' : RowImage) (pos' : Nat),
      decodeRowsLoop table bitmap data nullBitmap k i rows pos nullbitIndex =
        .done rows' pos' →
      rows'.length = rows.length ∧
        rows'.countP Option.isSome ≤
          rows.countP Option.isSome + (List.range' i k).countP (isPresent bitmap) := by
  intro k
  induction k with
  | zero =>
    intro i rows pos nbi rows' pos' h
    rw [decodeRowsLoop] at h
    simp only [RowPass.done.injEq] at h
    obtain ⟨rfl, -⟩ := h
    simp
  | succ k ih =>
    intro i rows pos nbi rows' pos' h
    rw [decodeRowsLoop] at h
    rw [List.range'_succ, List.countP_cons]
    split at h
    · simp at h
    · simp only at h
      split at h
      · simp at h
      · rename_i present hget
        have hp : isPresent bitmap i = (present != 0) := by simp only [isPresent, hget]
        split at h
        · obtain ⟨h1, h2⟩ := ih _ _ _ _ _ _ h
          exact ⟨h1, by omega⟩
        · rename_i hne
          have hp1 : isPresent bitmap i = true := by simp [hp, hne]
          simp only [hp1, if_true]
          split at h
          · split at h
            · simp at h
            · rename_i rows1 hassign
              obtain ⟨h1, h2⟩ := ih _ _ _ _ _ _ h
              rw [assign_some hassign] at h1 h2
              have := countP_set_le Option.isSome rows i none
              simp only [List.length_set] at h1
              exact ⟨h1, by omega⟩
          · split at h
            · split at h
              · simp at h
              · simp at h
              · split at h
                · simp at h
                · rename_i rows1 hassign
                  obtain ⟨h1, h2⟩ := ih _ _ _ _ _ _ h
                  rw [assign_some hassign] at h1 h2
                  rename_i v _ _ _
                  have := countP_set_le Option.isSome rows i v
                  simp only [List.length_set] at h1
                  exact ⟨h1, by omega⟩
            · simp at h

theorem isPresent_cons_low (b : Nat) (bs : Bytes) (j : Nat) (hj : j < 8) :
    isPresent (b :: bs) j = (b &&& (1 <<< j) != 0) := by
  have h1 : j / 8 = 0 := by omega
  have h2 : j % 8 = j := by omega
  simp [isPresent, bitGet, index, h1, h2]

theorem isPresent_cons_high (b : Nat) (bs : Bytes) (j : Nat) :
    isPresent (b :: bs) (8 + j) = isPresent bs j := by
  have h1 : (8 + j) / 8 = j / 8 + 1 := by omega
  have h2 : (8 + j) % 8 = j % 8 := by omega
  simp [isPresent, bitGet, index, h1, h2]

theorem countP_isPresent_le_bitCount (bitmap : Bytes) :
    ∀ n, (List.range' 0 n).countP (isPresent bitmap) ≤ bitCount bitmap := by
  induction bitmap with
  | nil =>
    intro n
    have : (List.range' 0 n).countP (isPresent []) = 0 := by
      rw [List.countP_eq_zero]
      intro a _
      simp [isPresent, bitGet, index]
    omega
  | cons b bs ih =>
    intro n
    have hlow : (List.range' 0 8).countP (isPresent (b :: bs)) = bitCountInByte b := by
      unfold bitCountInByte
      apply List.countP_congr
      intro j hj
      rw [List.mem_range'_1] at hj
      rw [isPresent_cons_low b bs j (by omega)]
    have hbc : bitCount (b :: bs) = bitCountInByte b + bitCount bs := by
      simp [bitCount]
    by_cases hn : n ≤ 8
    · have hsub : List.Sublist (List.range' 0 n) (List.range' 0 8) :=
        List.range'_sublist_right.mpr hn
      have := hsub.countP_le (isPresent (b :: bs))
      omega
    · obtain ⟨m, rfl⟩ : ∃ m, n = m + 8 := ⟨n - 8, by omega⟩
      have happ := List.range'_append 0 8 m 1
      simp only [Nat.zero_add, Nat.one_mul] at happ
      rw [← happ, List.countP_append, hlow]
      have hmap := List.map_add_range' 8 0 m 1
      simp only [Nat.add_zero] at hmap
      rw [← hmap, List.countP_map]
      have hcongr : (List.range' 0 m).countP (isPresent (b :: bs) ∘ fun x => 8 + x) =
          (List.range' 0 m).countP (isPresent bs) := by
        apply List.countP_congr
        intro j _
        simp only [Function.comp, isPresent_cons_high]
      rw [hcongr]
      have := ih m
      omega


theorem countP_isSome_add_isNone {α : Type} (l : List (Option α)) :
    l.countP Option.isSome + l.countP Option.isNone = l.length := by
  induction l with
  | nil => rfl
  | cons a l ih =>
    cases a <;> simp [List.countP_cons] <;> omega

theorem leUint_lt (l : Bytes) (h : ∀ b ∈ l, b < 256) : leUint l < 256 ^ l.length := by
  induction l with
  | nil => simp [leUint]
  | cons a l ih =>
    have ha := h a (List.mem_cons_self _ _)
    have hl := ih (fun b hb => h b (List.mem_cons_of_mem _ hb))
    simp only [leUint, List.length_cons, pow_succ]
    omega

theorem take_bytes {data : Bytes} (h : ∀ b ∈ data, b < 256) (k : Nat) :
    ∀ b ∈ data.take k, b < 256 :=
  fun b hb => h b (List.mem_of_mem_take hb)

theorem decodeString_short (data : Bytes) (length : Int) (b0 : Nat) (hlen : length < 256)
    (h0 : data[0]? = some b0) (hfit : 1 + b0 ≤ data.length) :
    decodeString data length = some (data.take (1 + b0), 1 + b0) := by
  have hs : slice data 0 ((b0 : Int) + 1) = some (data.take (b0 + 1)) := by
    have := slice_zero data (b0 + 1) (by omega)
    simpa using this
  simp only [decodeString, hlen, if_true, index, h0, hs, Nat.add_comm]

theorem decodeString_long (data : Bytes) (length : Int) (b0 b1 : Nat) (hlen : 256 ≤ length)
    (hbytes : ∀ b ∈ data, b < 256)
    (h0 : data[0]? = some b0) (h1 : data[1]? = some b1)
    (hfit : 2 + b0 + 256 * b1 ≤ data.length) :
    decodeString data length =
      some (data.take (2 + b0 + 256 * b1), 2 + b0 + 256 * b1) := by
  have hl2 : 2 ≤ data.length := by omega
  have hle : littleEndianUint16 data = some (b0 + 256 * b1) := by
    have hb0 : b0 < 256 := hbytes b0 (List.getElem?_mem h0)
    have hb1 : b1 < 256 := hbytes b1 (List.getElem?_mem h1)
    simp only [littleEndianUint16, hl2, if_true, leUint_take_two data hl2,
      List.getD_eq_getElem?_getD, h0, h1, Option.getD_some, Option.some.injEq]
    omega
  have hs : slice data 0 (((b0 + 256 * b1 : Nat) : Int) + 2) =
      some (data.take (b0 + 256 * b1 + 2)) := by
    have := slice_zero data (b0 + 256 * b1 + 2) (by omega)
    simpa using this
  have hn : ¬ length < 256 := by omega
  have e1 : 2 + b0 + 256 * b1 = b0 + 256 * b1 + 2 := by omega
  simp only [decodeString, hn, if_false, hle, hs, e1]

/-- C11: for a VARCHAR or VAR_STRING column with metadata `m` and an input of
well-formed bytes that holds the whole value, `decodeValue` returns the first
`n` bytes of the input, length bytes included: `n = 1 + data[0]` when
`m < 256`, `n = 2 + data[0] + 256*data[1]` when `m >= 256`; with `m = 200` and
the input `0x03 'a' 'b' 'c'` the segment length is 4. -/
theorem decodeValue_varchar (data : Bytes) (tp m : Nat)
    (htp : tp = MYSQL_TYPE_VARCHAR ∨ tp = MYSQL_TYPE_VAR_STRING)
    (hbytes : ∀ b ∈ data, b < 256) :
    (m < 256 → ∀ b0, data[0]? = some b0 → 1 + b0 ≤ data.length →
      decodeValue data tp m = .ok (some (data.take (1 + b0)), 1 + b0)) ∧
    (256 ≤ m → ∀ b0 b1, data[0]? = some b0 → data[1]? = some b1 →
      2 + b0 + 256 * b1 ≤ data.length →
      decodeValue data tp m =
        .ok (some (data.take (2 + b0 + 256 * b1)), 2 + b0 + 256 * b1)) ∧
    decodeValue [0x03, 0x61, 0x62, 0x63] tp 200 = .ok (some [0x03, 0x61, 0x62, 0x63], 4) := by
  refine ⟨?_, ?_, ?_⟩
  · intro hm b0 h0 hfit
    have hd := decodeString_short data (m : Int) b0 (by omega) h0 hfit
    rcases htp with rfl | rfl <;> simp [decodeValue, unpackString, hd]
  · intro hm b0 b1 h0 h1 hfit
    have hd := decodeString_long data (m : Int) b0 b1 (by omega) hbytes h0 h1 hfit
    rcases htp with rfl | rfl <;> simp [decodeValue, unpackString, hd]
  · rcases htp with rfl | rfl <;> decide

theorem decodeValue_varchar_witness :
    (300 < 256 → ∀ b0, [0x02, 0x00, 0x61, 0x62][0]? = some b0 →
      1 + b0 ≤ [0x02, 0x00, 0x61, 0x62].length →
      decodeValue [0x02, 0x00, 0x61, 0x62] MYSQL_TYPE_VARCHAR 300 =
        .ok (some ([0x02, 0x00, 0x61, 0x62].take (1 + b0)), 1 + b0)) ∧
    (256 ≤ 300 → ∀ b0 b1, [0x02, 0x00, 0x61, 0x62][0]? = some b0 →
      [0x02, 0x00, 0x61, 0x62][1]? = some b1 →
      2 + b0 + 256 * b1 ≤ [0x02, 0x00, 0x61, 0x62].length →
      decodeValue [0x02, 0x00, 0x61, 0x62] MYSQL_TYPE_VARCHAR 300 =
        .ok (some ([0x02, 0x00, 0x61, 0x62].take (2 + b0 + 256 * b1)), 2 + b0 + 256 * b1)) ∧
    decodeValue [0x03, 0x61, 0x62, 0x63] MYSQL_TYPE_VARCHAR 200 =
      .ok (some [0x03, 0x61, 0x62, 0x63], 4) :=
  decodeValue_varchar [0x02, 0x00, 0x61, 0x62] MYSQL_TYPE_VARCHAR 300 (Or.inl rfl) (by decide)

theorem fixedWidth_not_error (data : Bytes) (k : Nat) (r : Option Bytes × Nat) (err : Error) :
    fixedWidth data k ≠ .error r err := by
  unfold fixedWidth
  split <;> simp

theorem decodeValue_blob_packlen (data : Bytes) (m : Nat) :
    decodeValue data MYSQL_TYPE_BLOB m =
      if m = 1 then
        match index data 0 with
        | none => .panic
        | some length => fixedWidth data (length + 1)
      else if m = 2 then
        match littleEndianUint16 data with
        | none => .panic
        | some length => fixedWidth data (length + 2)
      else if m = 3 then
        match slice data 0 3 with
        | none => .panic
        | some b => fixedWidth data (FixedLengthInt b + 3)
      else if m = 4 then
        match littleEndianUint32 data with
        | none => .panic
        | some length => fixedWidth data (length + 4)
      else .error (none, 0) (.invalidBlobPacklen m) := by
  simp [decodeValue, unpackString]

/-- C12: for a BLOB column, `decodeValue` returns an error if and only if the
metadata is not one of 1, 2, 3, 4; and when the metadata is `w` in 1..4 and the
input of well-formed bytes holds the whole value, the result is the first
`w + L` bytes of the input and `n = w + L`, where `L` is the little-endian
value of the first `w` bytes. -/
theorem decodeValue_blob (data : Bytes) (m : Nat) (hbytes : ∀ b ∈ data, b < 256) :
    ((∃ r err, decodeValue data MYSQL_TYPE_BLOB m = .error r err) ↔ m ∉ [1, 2, 3, 4]) ∧
    (m ∈ [1, 2, 3, 4] → m ≤ data.length → m + leUint (data.take m) ≤ data.length →
      decodeValue data MYSQL_TYPE_BLOB m =
        .ok (some (data.take (m + leUint (data.take m))), m + leUint (data.take m))) := by
  rw [decodeValue_blob_packlen]
  constructor
  · constructor
    · rintro ⟨r, err, h⟩
      simp only [List.mem_cons, List.mem_singleton, List.not_mem_nil, or_false, not_or]
      refine ⟨?_, ?_, ?_, ?_⟩ <;> intro hm <;> subst hm <;> simp only [] at h <;>
        norm_num at h <;> split at h <;>
        first
          | exact absurd h (by simp)
          | exact absurd h (fixedWidth_not_error _ _ _ _)
    · intro hm
      simp only [List.mem_cons, List.mem_singleton, List.not_mem_nil, or_false, not_or] at hm
      obtain ⟨h1, h2, h3, h4⟩ := hm
      exact ⟨(none, 0), .invalidBlobPacklen m, by simp [h1, h2, h3, h4]⟩
  · intro hm hlen hfit
    have hb := leUint_lt (data.take m) (take_bytes hbytes m)
    have hl : (data.take m).length = m := by simp [hlen]
    rw [hl] at hb
    simp only [List.mem_cons, List.mem_singleton, List.not_mem_nil, or_false] at hm
    rcases hm with rfl | rfl | rfl | rfl
    · obtain ⟨b0, rest, rfl⟩ : ∃ b0 rest, data = b0 :: rest := by
        cases data with
        | nil => simp at hlen
        | cons a l => exact ⟨a, l, rfl⟩
      have e1 : leUint (List.take 1 (b0 :: rest)) = b0 := by simp [leUint]
      rw [e1] at hfit ⊢
      simp only [if_true, index, List.getElem?_cons_zero]
      rw [Nat.add_comm b0 1, fixedWidth_ok _ _ hfit]
    · have e1 : littleEndianUint16 data = some (leUint (data.take 2)) := by
        simp only [littleEndianUint16, hlen, if_true, Option.some.injEq]
        exact Nat.mod_eq_of_lt (by omega)
      norm_num
      rw [e1]
      simp only []
      rw [Nat.add_comm _ 2, fixedWidth_ok _ _ hfit]
    · have e1 : slice data 0 3 = some (data.take 3) := by
        have := slice_zero data 3 hlen
        simpa using this
      have e2 : FixedLengthInt (data.take 3) = leUint (data.take 3) := by
        unfold FixedLengthInt
        exact Nat.mod_eq_of_lt (by omega)
      norm_num
      rw [e1]
      simp only [e2]
      rw [Nat.add_comm _ 3, fixedWidth_ok _ _ hfit]
    · have e1 : littleEndianUint32 data = some (leUint (data.take 4)) := by
        simp only [littleEndianUint32, hlen, if_true, Option.some.injEq]
        exact Nat.mod_eq_of_lt (by omega)
      norm_num
      rw [e1]
      simp only []
      rw [Nat.add_comm _ 4, fixedWidth_ok _ _ hfit]

theorem decodeValue_blob_witness :
    ((∃ r err, decodeValue [0x02, 0x00, 0x61, 0x62] MYSQL_TYPE_BLOB 2 = .error r err) ↔
      2 ∉ [1, 2, 3, 4]) ∧
    (2 ∈ [1, 2, 3, 4] → 2 ≤ [0x02, 0x00, 0x61, 0x62].length →
      2 + leUint ([0x02, 0x00, 0x61, 0x62].take 2) ≤ [0x02, 0x00, 0x61, 0x62].length →
      decodeValue [0x02, 0x00, 0x61, 0x62] MYSQL_TYPE_BLOB 2 =
        .ok (some ([0x02, 0x00, 0x61, 0x62].take
            (2 + leUint ([0x02, 0x00, 0x61, 0x62].take 2))),
          2 + leUint ([0x02, 0x00, 0x61, 0x62].take 2))) :=
  decodeValue_blob [0x02, 0x00, 0x61, 0x62] 2 (by decide)

theorem unpackString_eq (m : Nat) (hm : m < 65536) :
    unpackString MYSQL_TYPE_STRING m = ((stringRealLength m : Int), stringRealType m) ∧
      stringRealLength m < 1024 := by
  have hb0 : m >>> 8 < 2 ^ 8 := by
    rw [Nat.shiftRight_eq_div_pow]; omega
  have hb1 : m &&& 0xFF < 2 ^ 8 := Nat.and_lt_two_pow m (by norm_num)
  have hx : (m >>> 8) &&& 0x30 < 2 ^ 6 := Nat.and_lt_two_pow _ (by norm_num)
  have hy : ((m >>> 8) &&& 0x30) ^^^ 0x30 < 2 ^ 6 := Nat.xor_lt_two_pow hx (by norm_num)
  have hz : (((m >>> 8) &&& 0x30) ^^^ 0x30) <<< 4 < 2 ^ 10 := by
    rw [Nat.shiftLeft_eq]; omega
  have hor : (m >>> 8) ||| 0x30 < 2 ^ 8 := Nat.or_lt_two_pow hb0 (by norm_num)
  have hlen : (m &&& 0xFF) ||| ((((m >>> 8) &&& 0x30) ^^^ 0x30) <<< 4) < 2 ^ 10 :=
    Nat.or_lt_two_pow (by omega) hz
  have e0 : (m >>> 8) % 256 = m >>> 8 := Nat.mod_eq_of_lt (by omega)
  have e1 : (m &&& 0xFF) % 256 = m &&& 0xFF := Nat.mod_eq_of_lt (by omega)
  have e2 : ((((m >>> 8) &&& 0x30) ^^^ 0x30) <<< 4) % 65536 =
      (((m >>> 8) &&& 0x30) ^^^ 0x30) <<< 4 := Nat.mod_eq_of_lt (by omega)
  have e3 : ((m >>> 8) ||| 0x30) % 256 = (m >>> 8) ||| 0x30 := Nat.mod_eq_of_lt (by omega)
  constructor
  · unfold unpackString stringRealLength stringRealType
    simp only [if_true, e0, e1, e2, e3]
    split_ifs <;> rfl
  · unfold stringRealLength
    split_ifs <;> omega

set_option maxRecDepth 8000 in
theorem decodeValue_string_other (data : Bytes) (m : Nat) (hm : m < 65536)
    (hne : stringRealType m ≠ MYSQL_TYPE_STRING) :
    decodeValue data MYSQL_TYPE_STRING m = decodeValue data (stringRealType m) m := by
  obtain ⟨hu, -⟩ := unpackString_eq m hm
  have hother : unpackString (stringRealType m) m = (0, stringRealType m) := by
    unfold unpackString
    rw [if_neg hne]
  unfold decodeValue
  rw [hu, hother]
  simp only [if_neg hne]

set_option maxRecDepth 8000 in
theorem decodeValue_string_same (data : Bytes) (m : Nat) (hm : m < 65536)
    (htp : stringRealType m = MYSQL_TYPE_STRING) :
    decodeValue data MYSQL_TYPE_STRING m =
      match decodeString data (stringRealLength m) with
      | none => .panic
      | some (v, n) => .ok (some v, n) := by
  obtain ⟨hu, -⟩ := unpackString_eq m hm
  unfold decodeValue
  rw [hu]
  simp only [htp]
  rfl

/-- C13: for a STRING column with metadata `m` (a `uint16`), `decodeValue`
dispatches on the effective length and real type of the unpacking rule
(`stringRealLength`, `stringRealType`): when the effective real type is not
STRING the call does what `decodeValue` does for that type tag with the same
metadata (ENUM, SET and every other tag), and when it is STRING the call is
`decodeString` with the effective length; the effective length is below 1024;
and when the effective real type is STRING and the input of well-formed bytes
holds the whole value, the result is the first `n` bytes of the input, length
bytes included, with a 1-byte length exactly when the effective length is below
256 and a 2-byte little-endian length otherwise. -/
theorem decodeValue_string (data : Bytes) (m : Nat) (hm : m < 65536)
    (hbytes : ∀ b ∈ data, b < 256) :
    unpackString MYSQL_TYPE_STRING m = ((stringRealLength m : Int), stringRealType m) ∧
    stringRealLength m < 1024 ∧
    (stringRealType m = MYSQL_TYPE_STRING →
      (stringRealLength m < 256 → ∀ b0, data[0]? = some b0 → 1 + b0 ≤ data.length →
        decodeValue data MYSQL_TYPE_STRING m = .ok (some (data.take (1 + b0)), 1 + b0)) ∧
      (256 ≤ stringRealLength m → ∀ b0 b1, data[0]? = some b0 → data[1]? = some b1 →
        2 + b0 + 256 * b1 ≤ data.length →
        decodeValue data MYSQL_TYPE_STRING m =
          .ok (some (data.take (2 + b0 + 256 * b1)), 2 + b0 + 256 * b1))) ∧
    (stringRealType m ≠ MYSQL_TYPE_STRING →
      decodeValue data MYSQL_TYPE_STRING m = decodeValue data (stringRealType m) m) ∧
    (stringRealType m = MYSQL_TYPE_STRING →
      decodeValue data MYSQL_TYPE_STRING m =
        match decodeString data (stringRealLength m) with
        | none => .panic
        | some (v, n) => .ok (some v, n)) := by
  obtain ⟨hu, hl⟩ := unpackString_eq m hm
  refine ⟨hu, hl, fun htp => ⟨?_, ?_⟩, ?_, ?_⟩
  · intro hlen b0 h0 hfit
    have hd := decodeString_short data (stringRealLength m : Int) b0 (by omega) h0 hfit
    simp [decodeValue, hu, htp, hd]
  · intro hlen b0 b1 h0 h1 hfit
    have hd := decodeString_long data (stringRealLength m : Int) b0 b1 (by omega) hbytes
      h0 h1 hfit
    simp [decodeValue, hu, htp, hd]
  · exact decodeValue_string_other data m hm
  · exact decodeValue_string_same data m hm

theorem decodeValue_string_witness :
    (unpackString MYSQL_TYPE_STRING 0xEE05 =
      ((stringRealLength 0xEE05 : Int), stringRealType 0xEE05) ∧
    stringRealLength 0xEE05 < 1024 ∧
    decodeValue [0x02, 0x00, 0x61, 0x62] MYSQL_TYPE_STRING 0xEE05 =
      .ok (some ([0x02, 0x00, 0x61, 0x62].take (2 + 2 + 256 * 0)), 2 + 2 + 256 * 0)) ∧
    (stringRealType 0xF701 = MYSQL_TYPE_ENUM ∧
      decodeValue [0x02, 0x00, 0x61, 0x62] MYSQL_TYPE_STRING 0xF701 =
        decodeValue [0x02, 0x00, 0x61, 0x62] (stringRealType 0xF701) 0xF701 ∧
      decodeValue [0x02, 0x00, 0x61, 0x62] MYSQL_TYPE_STRING 0xF701 = .ok (some [0x02], 1)) :=
  ⟨⟨(decodeValue_string [0x02, 0x00, 0x61, 0x62] 0xEE05 (by decide) (by decide)).1,
    (decodeValue_string [0x02, 0x00, 0x61, 0x62] 0xEE05 (by decide) (by decide)).2.1,
    ((decodeValue_string [0x02, 0x00, 0x61, 0x62] 0xEE05 (by decide) (by decide)).2.2.1
      (by decide)).2 (by decide) 2 0 (by decide) (by decide) (by decide)⟩,
   by decide,
   (decodeValue_string [0x02, 0x00, 0x61, 0x62] 0xF701 (by decide) (by decide)).2.2.2.1
     (by decide),
   by decide⟩

/-- C14 (counterexample): with fractional-seconds precision 0, the segment of
a TIMESTAMP2 value is 4 bytes long, of a DATETIME2 value 5 and of a TIME2 value
3, while `4 + ⌈(0+1)/2⌉` is 5, `5 + ⌈(0+1)/2⌉` is 6 and `3 + ⌈(0+1)/2⌉` is 4. -/
theorem fractional_seconds_zero_has_no_byte :
    decodeValue [1, 2, 3, 4, 5, 6, 7, 8] MYSQL_TYPE_TIMESTAMP2 0 = .ok (some [1, 2, 3, 4], 4) ∧
    decodeValue [1, 2, 3, 4, 5, 6, 7, 8] MYSQL_TYPE_DATETIME2 0 =
      .ok (some [1, 2, 3, 4, 5], 5) ∧
    decodeValue [1, 2, 3, 4, 5, 6, 7, 8] MYSQL_TYPE_TIME2 0 = .ok (some [1, 2, 3], 3) ∧
    4 + ceilDiv (0 + 1) 2 = 5 ∧ 5 + ceilDiv (0 + 1) 2 = 6 ∧ 3 + ceilDiv (0 + 1) 2 = 4 := by
  decide

/-- C14 (amended): for every fractional-seconds precision `fsp` in 0..6 given
as metadata and every input with enough bytes, the segment length returned for
TIMESTAMP2 is `4 + ⌊(fsp+1)/2⌋`, for DATETIME2 `5 + ⌊(fsp+1)/2⌋` and for TIME2
`3 + ⌊(fsp+1)/2⌋`, that is the base width plus `⌈fsp/2⌉`, and the segment is
the first that many bytes of the input. -/
theorem decodeValue_fractional_seconds (data : Bytes) (fsp : Nat) (hfsp : fsp ≤ 6) :
    (4 + (fsp + 1) / 2 ≤ data.length →
      decodeValue data MYSQL_TYPE_TIMESTAMP2 fsp =
        .ok (some (data.take (4 + (fsp + 1) / 2)), 4 + (fsp + 1) / 2)) ∧
    (5 + (fsp + 1) / 2 ≤ data.length →
      decodeValue data MYSQL_TYPE_DATETIME2 fsp =
        .ok (some (data.take (5 + (fsp + 1) / 2)), 5 + (fsp + 1) / 2)) ∧
    (3 + (fsp + 1) / 2 ≤ data.length →
      decodeValue data MYSQL_TYPE_TIME2 fsp =
        .ok (some (data.take (3 + (fsp + 1) / 2)), 3 + (fsp + 1) / 2)) ∧
    (fsp + 1) / 2 = ceilDiv fsp 2 := by
  have e4 : (4 + (fsp + 1) % 65536 / 2) % 65536 = 4 + (fsp + 1) / 2 := by omega
  have e5 : (5 + (fsp + 1) % 65536 / 2) % 65536 = 5 + (fsp + 1) / 2 := by omega
  have e3 : (3 + (fsp + 1) % 65536 / 2) % 65536 = 3 + (fsp + 1) / 2 := by omega
  refine ⟨fun h => ?_, fun h => ?_, fun h => ?_, ?_⟩
  · have hs := slice_zero data _ h
    push_cast at hs
    simp [decodeValue, unpackString, decodeTimestamp2, e4, hs]
  · have hs := slice_zero data _ h
    push_cast at hs
    simp [decodeValue, unpackString, decodeDatetime2, e5, hs]
  · have hs := slice_zero data _ h
    push_cast at hs
    simp [decodeValue, unpackString, decodeTime2, e3, hs]
  · unfold ceilDiv; omega

theorem decodeValue_fractional_seconds_witness :
    (4 + (3 + 1) / 2 ≤ [1, 2, 3, 4, 5, 6, 7, 8].length →
      decodeValue [1, 2, 3, 4, 5, 6, 7, 8] MYSQL_TYPE_TIMESTAMP2 3 =
        .ok (some ([1, 2, 3, 4, 5, 6, 7, 8].take (4 + (3 + 1) / 2)), 4 + (3 + 1) / 2)) ∧
    (5 + (3 + 1) / 2 ≤ [1, 2, 3, 4, 5, 6, 7, 8].length →
      decodeValue [1, 2, 3, 4, 5, 6, 7, 8] MYSQL_TYPE_DATETIME2 3 =
        .ok (some ([1, 2, 3, 4, 5, 6, 7, 8].take (5 + (3 + 1) / 2)), 5 + (3 + 1) / 2)) ∧
    (3 + (3 + 1) / 2 ≤ [1, 2, 3, 4, 5, 6, 7, 8].length →
      decodeValue [1, 2, 3, 4, 5, 6, 7, 8] MYSQL_TYPE_TIME2 3 =
        .ok (some ([1, 2, 3, 4, 5, 6, 7, 8].take (3 + (3 + 1) / 2)), 3 + (3 + 1) / 2)) ∧
    (3 + 1) / 2 = ceilDiv 3 2 :=
  decodeValue_fractional_seconds [1, 2, 3, 4, 5, 6, 7, 8] 3 (by decide)

theorem compressedBytes_lookup (r : Nat) (hr : r < 9) :
    indexInt compressedBytes (r : Int) = some (leftoverBytes r : Int) := by
  interval_cases r <;> rfl

theorem leftover_digits (a : Nat) :
    (a : Int) - ((a / 9 : Nat) : Int) * digitsPerInteger = ((a % 9 : Nat) : Int) ∧
      Int.tdiv (a : Int) digitsPerInteger = ((a / 9 : Nat) : Int) := by
  constructor
  · unfold digitsPerInteger
    omega
  · unfold digitsPerInteger
    rw [Int.tdiv_eq_ediv (by omega) (by omega)]
    omega

theorem decodeDecimal_ok (data : Bytes) (p s : Nat) (hs : s ≤ p)
    (hfit : decimalSize p s ≤ data.length) :
    decodeDecimal data p s = .ok (some (data.take (decimalSize p s)), decimalSize p s) := by
  obtain ⟨hi1, hi2⟩ := leftover_digits (p - s)
  obtain ⟨hf1, hf2⟩ := leftover_digits s
  have hcast : (p : Int) - (s : Int) = ((p - s : Nat) : Int) := by omega
  have hl1 := compressedBytes_lookup ((p - s) % 9) (Nat.mod_lt _ (by norm_num))
  have hl2 := compressedBytes_lookup (s % 9) (Nat.mod_lt _ (by norm_num))
  have hpos : ∀ (x : Int) (w : Nat), (if (w : Int) > 0 then x + (w : Int) else x) = x + w := by
    intro x w
    split <;> omega
  have hsize : (0 : Int) + (leftoverBytes ((p - s) % 9) : Int) + ((p - s) / 9 : Nat) * 4 +
      4 * ((s / 9 : Nat) : Int) + (leftoverBytes (s % 9) : Int) = ((decimalSize p s : Nat) : Int) := by
    unfold decimalSize
    push_cast
    omega
  have hslice := slice_zero data _ hfit
  simp only [decodeDecimal, hcast, hi2, hf2, hi1, hf1, hl1, hl2, hpos]
  rw [hsize]
  simp only [hslice, Int.toNat_ofNat]

/-- C15: for precision `p` and scale `s` with `s <= p <= 255` and an input
with enough bytes, `decodeDecimal`, and `decodeValue` on a NEWDECIMAL column
with metadata `(p<<8)+s`, succeed with the segment length
`W((p-s) mod 9) + 4*((p-s) div 9) + 4*(s div 9) + W(s mod 9)` (`decimalSize`,
`W` being `leftoverBytes`) and return the first that many bytes of the input;
the two leftover digit counts the code looks up in `compressedBytes` are
`(p-s) mod 9` and `s mod 9`, both at most 8. -/
theorem decodeDecimal_size (data : Bytes) (p s : Nat) (hs : s ≤ p) (hp : p ≤ 255)
    (hfit : decimalSize p s ≤ data.length) :
    decodeDecimal data p s = .ok (some (data.take (decimalSize p s)), decimalSize p s) ∧
    decodeValue data MYSQL_TYPE_NEWDECIMAL ((p <<< 8) + s) =
      .ok (some (data.take (decimalSize p s)), decimalSize p s) ∧
    ((p : Int) - s) - Int.tdiv ((p : Int) - s) digitsPerInteger * digitsPerInteger =
      (((p - s) % 9 : Nat) : Int) ∧
    (s : Int) - Int.tdiv (s : Int) digitsPerInteger * digitsPerInteger = ((s % 9 : Nat) : Int) ∧
    (p - s) % 9 ≤ 8 ∧ s % 9 ≤ 8 := by
  have hdec := decodeDecimal_ok data p s hs hfit
  have hcast : (p : Int) - (s : Int) = ((p - s : Nat) : Int) := by omega
  obtain ⟨hi1, hi2⟩ := leftover_digits (p - s)
  obtain ⟨hf1, hf2⟩ := leftover_digits s
  refine ⟨hdec, ?_, by rw [hcast, hi2, hi1], by rw [hf2, hf1], by omega, by omega⟩
  have hprec : (((p <<< 8) + s) >>> 8) % 256 = p := by
    rw [Nat.shiftLeft_eq, Nat.shiftRight_eq_div_pow]
    simp only [show (2 : Nat) ^ 8 = 256 by norm_num]
    have hs255 : s < 256 := by omega
    have hdiv : (p * 256 + s) / 256 = p := by
      rw [Nat.add_comm, Nat.add_mul_div_right _ _ (by norm_num), Nat.div_eq_of_lt hs255]
      omega
    rw [hdiv]
    exact Nat.mod_eq_of_lt (by omega)
  have hscale : (((p <<< 8) + s) &&& 0xFF) % 256 = s := by
    have h := Nat.and_pow_two_sub_one_eq_mod ((p <<< 8) + s) 8
    norm_num at h
    rw [h, Nat.shiftLeft_eq]
    simp only [show (2 : Nat) ^ 8 = 256 by norm_num]
    have hs255 : s < 256 := by omega
    rw [Nat.add_comm, Nat.add_mul_mod_self_right, Nat.mod_mod, Nat.mod_eq_of_lt hs255]
  simp [decodeValue, unpackString, hprec, hscale, hdec]

theorem decodeDecimal_size_witness :
    decodeDecimal [0x80, 0x00, 0x7B, 0x2D, 0x09] 10 2 =
      .ok (some ([0x80, 0x00, 0x7B, 0x2D, 0x09].take (decimalSize 10 2)), decimalSize 10 2) ∧
    decodeValue [0x80, 0x00, 0x7B, 0x2D, 0x09] MYSQL_TYPE_NEWDECIMAL ((10 <<< 8) + 2) =
      .ok (some ([0x80, 0x00, 0x7B, 0x2D, 0x09].take (decimalSize 10 2)), decimalSize 10 2) ∧
    (((10 : Nat) : Int) - ((2 : Nat) : Int)) -
        Int.tdiv (((10 : Nat) : Int) - ((2 : Nat) : Int)) digitsPerInteger * digitsPerInteger =
      (((10 - 2) % 9 : Nat) : Int) ∧
    (((2 : Nat) : Int)) - Int.tdiv (((2 : Nat) : Int)) digitsPerInteger * digitsPerInteger =
      ((2 % 9 : Nat) : Int) ∧
    (10 - 2) % 9 ≤ 8 ∧ 2 % 9 ≤ 8 :=
  decodeDecimal_size [0x80, 0x00, 0x7B, 0x2D, 0x09] 10 2 (by decide) (by decide) (by decide)

theorem decodeMetaCase_unsupported (data : Bytes) (pos t : Nat) (h : t ∈ unsupportedTags) :
    decodeMetaCase data pos t = .unsupported := by
  simp only [unsupportedTags, List.mem_cons, List.mem_singleton, List.not_mem_nil,
    or_false] at h
  rcases h with rfl | rfl | rfl | rfl | rfl | rfl <;> simp [decodeMetaCase]

theorem decodeMetaLoop_never_ok (data : Bytes) :
    ∀ (ts : List Nat) (i pos : Nat) (cm cm' : List Nat),
      (∃ t ∈ ts, t ∈ unsupportedTags) → decodeMetaLoop data ts i pos cm ≠ .ok cm' := by
  intro ts
  induction ts with
  | nil =>
    intro i pos cm cm' h
    obtain ⟨t, ht, -⟩ := h
    simp at ht
  | cons t ts ih =>
    intro i pos cm cm' h hok
    by_cases hu : t ∈ unsupportedTags
    · simp [decodeMetaLoop, decodeMetaCase_unsupported data pos t hu] at hok
    · have hrest : ∃ u ∈ ts, u ∈ unsupportedTags := by
        obtain ⟨u, hu1, hu2⟩ := h
        rcases List.mem_cons.mp hu1 with rfl | hmem
        · exact absurd hu2 hu
        · exact ⟨u, hmem, hu2⟩
      rw [decodeMetaLoop] at hok
      split at hok
      · simp at hok
      · simp at hok
      · split at hok
        · simp at hok
        · exact ih _ _ _ _ hrest hok

theorem decodeMetaLoop_unsupported (data : Bytes) (hbytes : ∀ b ∈ data, b < 256) :
    ∀ (ts : List Nat) (i pos : Nat) (cm : List Nat),
      (∃ t ∈ ts, t ∈ unsupportedTags) →
      pos + (ts.map metaWidth).sum ≤ data.length →
      i + ts.length ≤ cm.length →
      ∃ cm' t, t ∈ ts ∧ t ∈ unsupportedTags ∧
        decodeMetaLoop data ts i pos cm = .error cm' (.unsupportTypeInBinlog t) := by
  intro ts
  induction ts with
  | nil =>
    intro i pos cm h _ _
    obtain ⟨t, ht, -⟩ := h
    simp at ht
  | cons t ts ih =>
    intro i pos cm h hlen hi
    simp only [List.map_cons, List.sum_cons, List.length_cons] at hlen hi
    by_cases hu : t ∈ unsupportedTags
    · exact ⟨cm, t, List.mem_cons_self _ _, hu, by
        simp [decodeMetaLoop, decodeMetaCase_unsupported data pos t hu]⟩
    · have hrest : ∃ u ∈ ts, u ∈ unsupportedTags := by
        obtain ⟨u, hu1, hu2⟩ := h
        rcases List.mem_cons.mp hu1 with rfl | hmem
        · exact absurd hu2 hu
        · exact ⟨u, hmem, hu2⟩
      have hcase := decodeMetaCase_value data pos t hu (by omega) hbytes
      have hassign : assign cm i (metaValue t data pos) =
          some (cm.set i (metaValue t data pos)) := by
        simp only [assign]; rw [if_pos (by omega)]
      obtain ⟨cm', u, hu1, hu2, hrun⟩ :=
        ih (i + 1) (pos + metaWidth t) (cm.set i (metaValue t data pos)) hrest
          (by omega) (by simp only [List.length_set]; omega)
      exact ⟨cm', u, List.mem_cons_of_mem _ hu1, hu2, by
        simp only [decodeMetaLoop, hcase, hassign, hrun]⟩

theorem makeSlice_of_fit {α : Type} (n : Nat) (zero : α) (h : n < 2 ^ 63) :
    makeSlice n zero = some (List.replicate n zero) := by
  have : n % 2 ^ 64 = n := Nat.mod_eq_of_lt (by omega)
  simp only [makeSlice, this]
  rw [if_pos h]

theorem decodeMeta_never_ok (e e' : TableMapEvent) (data : Bytes)
    (h : ∃ t ∈ e.ColumnType, t ∈ unsupportedTags) : e.decodeMeta data ≠ .ok e' := by
  intro hok
  simp only [TableMapEvent.decodeMeta] at hok
  split at hok
  · simp at hok
  · split at hok
    · simp at hok
    · simp at hok
    · rename_i cm hloop
      exact decodeMetaLoop_never_ok data _ _ _ _ _ h hloop

theorem decodeMeta_error_of_unsupported (e : TableMapEvent) (data : Bytes)
    (hcount : e.ColumnCount = e.ColumnType.length)
    (hfit : e.ColumnType.length < 2 ^ 63)
    (hlen : metaOffset e.ColumnType e.ColumnType.length ≤ data.length)
    (hbytes : ∀ b ∈ data, b < 256)
    (h : ∃ t ∈ e.ColumnType, t ∈ unsupportedTags) :
    ∃ cm t, t ∈ e.ColumnType ∧ t ∈ unsupportedTags ∧
      e.decodeMeta data = .error { e with ColumnMeta := cm } (.unsupportTypeInBinlog t) := by
  have hmake := makeSlice_of_fit e.ColumnType.length (0 : Nat) hfit
  obtain ⟨cm, t, ht1, ht2, hrun⟩ :=
    decodeMetaLoop_unsupported data hbytes e.ColumnType 0 0
      (List.replicate e.ColumnType.length 0) h (by simpa [metaOffset] using hlen) (by simp)
  exact ⟨cm, t, ht1, ht2, by simp only [TableMapEvent.decodeMeta, hcount, hmake, hrun]⟩

theorem decodeMeta_ok_of_supported (e : TableMapEvent) (data : Bytes)
    (hcount : e.ColumnCount = e.ColumnType.length)
    (hfit : e.ColumnType.length < 2 ^ 63)
    (hlen : metaOffset e.ColumnType e.ColumnType.length ≤ data.length)
    (hbytes : ∀ b ∈ data, b < 256)
    (h : ∀ t ∈ e.ColumnType, t ∉ unsupportedTags) :
    ∃ cm, e.decodeMeta data = .ok { e with ColumnMeta := cm } ∧
      cm.length = e.ColumnType.length ∧
      ∀ j t, e.ColumnType[j]? = some t →
        cm[j]? = some (metaValue t data (metaOffset e.ColumnType j)) := by
  have hmake := makeSlice_of_fit e.ColumnType.length (0 : Nat) hfit
  obtain ⟨cm, hrun, hlen', hval, -⟩ :=
    decodeMetaLoop_ok data hbytes e.ColumnType 0 0 (List.replicate e.ColumnType.length 0)
      h (by simpa [metaOffset] using hlen) (by simp)
  refine ⟨cm, by simp only [TableMapEvent.decodeMeta, hcount, hmake, hrun],
    by simpa using hlen', ?_⟩
  intro j t hj
  simpa using hval j t hj

/-- C16: for every list of column type tags and every metadata block of
well-formed bytes long enough for them, `decodeMeta` returns an error if and
only if some column has one of the tags NEWDATE, ENUM, SET, TINY_BLOB,
MEDIUM_BLOB, LONG_BLOB, and the error is then the unsupported-type error of
such a tag; and `TableMapEvent.Decode` of a body carrying such a tag never
returns a descriptor, and returns that error when the metadata block is long
enough. -/
theorem decodeMeta_unsupported_iff (e : TableMapEvent) (data : Bytes)
    (hcount : e.ColumnCount = e.ColumnType.length)
    (hfit : e.ColumnType.length < 2 ^ 63)
    (hlen : metaOffset e.ColumnType e.ColumnType.length ≤ data.length)
    (hbytes : ∀ b ∈ data, b < 256) :
    ((∃ e' err, e.decodeMeta data = .error e' err) ↔
      ∃ t ∈ e.ColumnType, t ∈ unsupportedTags) ∧
    (∀ e' err, e.decodeMeta data = .error e' err →
      ∃ t ∈ e.ColumnType, t ∈ unsupportedTags ∧ err = .unsupportTypeInBinlog t) ∧
    (∀ (e0 : TableMapEvent) (body : Bytes) (e1 : TableMapEvent) (pos : Nat),
      e0.decodeHead body = some (e1, pos) →
      (∃ t ∈ e1.ColumnType, t ∈ unsupportedTags) →
      (∀ e2, e0.Decode body ≠ .ok e2) ∧
      (∀ metaData isNull n,
        LengthEnodedString (body.drop pos) = .ok (metaData, isNull, n) →
        metaOffset e1.ColumnType e1.ColumnType.length ≤ (metaData.getD []).length →
        (∀ b ∈ metaData.getD [], b < 256) →
        ∃ e2 t, t ∈ unsupportedTags ∧
          e0.Decode body = .error e2 (.unsupportTypeInBinlog t))) := by
  have hiff : (∃ e' err, e.decodeMeta data = .error e' err) ↔
      ∃ t ∈ e.ColumnType, t ∈ unsupportedTags := by
    constructor
    · rintro ⟨e', err, herr⟩
      by_contra hnone
      have hall : ∀ t ∈ e.ColumnType, t ∉ unsupportedTags :=
        fun t ht hu => hnone ⟨t, ht, hu⟩
      obtain ⟨cm, hok, -⟩ := decodeMeta_ok_of_supported e data hcount hfit hlen hbytes hall
      rw [hok] at herr
      simp at herr
    · intro h
      obtain ⟨cm, t, -, -, hrun⟩ :=
        decodeMeta_error_of_unsupported e data hcount hfit hlen hbytes h
      exact ⟨_, _, hrun⟩
  refine ⟨hiff, ?_, ?_⟩
  · intro e' err herr
    obtain ⟨cm, t, ht1, ht2, hrun⟩ :=
      decodeMeta_error_of_unsupported e data hcount hfit hlen hbytes (hiff.mp ⟨e', err, herr⟩)
    rw [hrun] at herr
    simp only [Ret.error.injEq] at herr
    exact ⟨t, ht1, ht2, herr.2.symm⟩
  · intro e0 body e1 pos hhead hunsupp
    obtain ⟨hct, hcc, hpos⟩ := decodeHead_some hhead
    have hfrom : sliceFrom body pos = some (body.drop pos) := by
      simp only [sliceFrom]; rw [if_pos hpos]
    constructor
    · intro e2 hok
      simp only [TableMapEvent.Decode, hhead, hfrom, Option.elim] at hok
      split at hok
      · simp at hok
      · simp at hok
      · split at hok
        · simp at hok
        · simp at hok
        · rename_i e3 hmeta
          exact decodeMeta_never_ok _ _ _ hunsupp hmeta
    · intro metaData isNull n hstr hmlen hmbytes
      obtain ⟨cm, t, -, ht2, hrun⟩ :=
        decodeMeta_error_of_unsupported e1 (metaData.getD []) hct.symm (by omega) hmlen
          hmbytes hunsupp
      exact ⟨{ e1 with ColumnMeta := cm }, t, ht2, by
        simp only [TableMapEvent.Decode, hhead, hfrom, Option.elim, hstr, hrun]⟩

theorem decodeMeta_unsupported_iff_witness :
    ((∃ e' err, (tableOf 1 [MYSQL_TYPE_TINY, MYSQL_TYPE_ENUM] []).decodeMeta [] =
        .error e' err) ↔
      ∃ t ∈ (tableOf 1 [MYSQL_TYPE_TINY, MYSQL_TYPE_ENUM] []).ColumnType,
        t ∈ unsupportedTags) ∧
    (tableOf 1 [MYSQL_TYPE_TINY, MYSQL_TYPE_ENUM] []).decodeMeta [] =
      .error (tableOf 1 [MYSQL_TYPE_TINY, MYSQL_TYPE_ENUM] [0, 0])
        (.unsupportTypeInBinlog MYSQL_TYPE_ENUM) :=
  ⟨(decodeMeta_unsupported_iff (tableOf 1 [MYSQL_TYPE_TINY, MYSQL_TYPE_ENUM] []) []
      (by decide) (by decide) (by decide) (by decide)).1, by decide⟩

theorem take_drop_getD_two (data : Bytes) (pos : Nat) (h : pos + 2 ≤ data.length) :
    (data.drop pos).take 2 = [data.getD pos 0, data.getD (pos + 1) 0] := by
  apply List.ext_getElem?
  intro k
  rcases k with _ | _ | k
  · simp [List.getElem?_take, List.getD_eq_getElem?_getD,
      List.getElem?_eq_getElem (show pos < data.length by omega)]
  · simp [List.getElem?_take, List.getD_eq_getElem?_getD,
      List.getElem?_eq_getElem (show pos + 1 < data.length by omega)]
  · simp [List.getElem?_take]

theorem take_drop_getD_one (data : Bytes) (pos : Nat) (h : pos + 1 ≤ data.length) :
    (data.drop pos).take 1 = [data.getD pos 0] := by
  apply List.ext_getElem?
  intro k
  rcases k with _ | k
  · simp [List.getElem?_take, List.getD_eq_getElem?_getD,
      List.getElem?_eq_getElem (show pos < data.length by omega)]
  · simp [List.getElem?_take]

theorem encodeMetaValue_metaValue (data : Bytes) (pos t : Nat)
    (hlen : pos + metaWidth t ≤ data.length) (hbytes : ∀ b ∈ data, b < 256) :
    encodeMetaValue t (metaValue t data pos) = (data.drop pos).take (metaWidth t) := by
  have hb : ∀ k, data.getD k 0 < 256 := by
    intro k
    by_cases hk : k < data.length
    · rw [List.getD_eq_getElem _ _ hk]; exact hbytes _ (List.getElem_mem _)
    · rw [List.getD_eq_default _ _ (by omega)]; omega
  have h0 := hb pos
  have h1 := hb (pos + 1)
  by_cases hA : t = MYSQL_TYPE_STRING ∨ t = MYSQL_TYPE_NEWDECIMAL
  · have h2 : pos + 2 ≤ data.length := by
      rcases hA with rfl | rfl <;> simpa [metaWidth] using hlen
    have hw : metaWidth t = 2 := by rcases hA with rfl | rfl <;> simp [metaWidth]
    have hv : metaValue t data pos = (data.getD pos 0 <<< 8) + data.getD (pos + 1) 0 := by
      rcases hA with rfl | rfl <;> simp [metaValue]
    have he : encodeMetaValue t (metaValue t data pos) =
        [metaValue t data pos / 256, metaValue t data pos % 256] := by
      rcases hA with rfl | rfl <;> simp [encodeMetaValue]
    rw [he, hw, take_drop_getD_two data pos h2, hv, Nat.shiftLeft_eq]
    congr 1
    · omega
    · congr 1
      omega
  by_cases hB : t = MYSQL_TYPE_VAR_STRING ∨ t = MYSQL_TYPE_VARCHAR ∨ t = MYSQL_TYPE_BIT
  · have h2 : pos + 2 ≤ data.length := by
      rcases hB with rfl | rfl | rfl <;> simpa [metaWidth] using hlen
    have hw : metaWidth t = 2 := by rcases hB with rfl | rfl | rfl <;> simp [metaWidth]
    have hv : metaValue t data pos = data.getD pos 0 + (data.getD (pos + 1) 0 <<< 8) := by
      rcases hB with rfl | rfl | rfl <;> simp [metaValue]
    have he : encodeMetaValue t (metaValue t data pos) =
        [metaValue t data pos % 256, metaValue t data pos / 256] := by
      rcases hB with rfl | rfl | rfl <;> simp [encodeMetaValue]
    rw [he, hw, take_drop_getD_two data pos h2, hv, Nat.shiftLeft_eq]
    congr 1
    · omega
    · congr 1
      omega
  by_cases hC : t = MYSQL_TYPE_BLOB ∨ t = MYSQL_TYPE_DOUBLE ∨ t = MYSQL_TYPE_FLOAT ∨
      t = MYSQL_TYPE_GEOMETRY ∨ t = MYSQL_TYPE_TIME2 ∨ t = MYSQL_TYPE_DATETIME2 ∨
      t = MYSQL_TYPE_TIMESTAMP2
  · have h2 : pos + 1 ≤ data.length := by
      rcases hC with rfl | rfl | rfl | rfl | rfl | rfl | rfl <;> simpa [metaWidth] using hlen
    have hw : metaWidth t = 1 := by
      rcases hC with rfl | rfl | rfl | rfl | rfl | rfl | rfl <;> simp [metaWidth]
    have he : encodeMetaValue t (metaValue t data pos) = [data.getD pos 0] := by
      rcases hC with rfl | rfl | rfl | rfl | rfl | rfl | rfl <;>
        simp [encodeMetaValue, metaValue]
    rw [he, hw, take_drop_getD_one data pos h2]
  simp only [not_or] at hA hB hC
  have hw : metaWidth t = 0 := by simp [metaWidth, hA, hB, hC]
  have he : encodeMetaValue t (metaValue t data pos) = [] := by
    simp [encodeMetaValue, hA, hB, hC]
  rw [he, hw, List.take_zero]

theorem encodeMeta_values (data : Bytes) (hbytes : ∀ b ∈ data, b < 256) :
    ∀ (ts : List Nat) (pos : Nat) (cm : List Nat),
      cm.length = ts.length →
      (∀ j t, ts[j]? = some t → cm[j]? = some (metaValue t data (pos + metaOffset ts j))) →
      pos + (ts.map metaWidth).sum ≤ data.length →
      encodeMeta ts cm = (data.drop pos).take ((ts.map metaWidth).sum) := by
  intro ts
  induction ts with
  | nil =>
    intro pos cm _ _ _
    simp [encodeMeta]
  | cons t ts ih =>
    intro pos cm hlen hval hfit
    cases cm with
    | nil => simp at hlen
    | cons v vs =>
      simp only [List.map_cons, List.sum_cons, List.length_cons] at hfit hlen
      have hv : v = metaValue t data pos := by
        have := hval 0 t (by simp)
        simpa [metaOffset] using this
      have hrest : ∀ j u, ts[j]? = some u →
          vs[j]? = some (metaValue u data (pos + metaWidth t + metaOffset ts j)) := by
        intro j u hj
        have := hval (j + 1) u (by simpa using hj)
        simpa [metaOffset, Nat.add_assoc] using this
      have hih := ih (pos + metaWidth t) vs (by omega) hrest (by omega)
      simp only [encodeMeta, List.map_cons, List.sum_cons]
      rw [hv, encodeMetaValue_metaValue data pos t (by omega) hbytes, hih, List.take_add,
        List.drop_drop]

/-- C17: for column type tags none of which is unsupported and a metadata
block of well-formed bytes whose length is exactly the sum of the widths of
the tags, `decodeMeta` succeeds and re-encoding each resulting value by the
rule of its tag (`encodeMeta`) yields the same block; hence two such blocks
that `decodeMeta` decodes alike are equal. -/
theorem decodeMeta_roundtrip (e : TableMapEvent) (data : Bytes)
    (hcount : e.ColumnCount = e.ColumnType.length)
    (hfit : e.ColumnType.length < 2 ^ 63)
    (hsupp : ∀ t ∈ e.ColumnType, t ∉ unsupportedTags)
    (hlen : metaOffset e.ColumnType e.ColumnType.length = data.length)
    (hbytes : ∀ b ∈ data, b < 256) :
    (∃ cm, e.decodeMeta data = .ok { e with ColumnMeta := cm } ∧
      encodeMeta e.ColumnType cm = data) ∧
    (∀ data2 : Bytes, metaOffset e.ColumnType e.ColumnType.length = data2.length →
      (∀ b ∈ data2, b < 256) → e.decodeMeta data2 = e.decodeMeta data → data2 = data) := by
  have key : ∀ d : Bytes, metaOffset e.ColumnType e.ColumnType.length = d.length →
      (∀ b ∈ d, b < 256) →
      ∃ cm, e.decodeMeta d = .ok { e with ColumnMeta := cm } ∧
        encodeMeta e.ColumnType cm = d := by
    intro d hd hb
    obtain ⟨cm, hok, hcl, hval⟩ :=
      decodeMeta_ok_of_supported e d hcount hfit (by omega) hb hsupp
    refine ⟨cm, hok, ?_⟩
    have hsum : (e.ColumnType.map metaWidth).sum = d.length := by
      simpa [metaOffset] using hd
    have henc := encodeMeta_values d hb e.ColumnType 0 cm hcl
      (by simpa using hval) (by omega)
    rw [henc, hsum]
    simp
  refine ⟨key data hlen hbytes, ?_⟩
  intro data2 hlen2 hbytes2 heq
  obtain ⟨cm1, hok1, henc1⟩ := key data hlen hbytes
  obtain ⟨cm2, hok2, henc2⟩ := key data2 hlen2 hbytes2
  rw [hok1, hok2] at heq
  simp only [Ret.ok.injEq, TableMapEvent.mk.injEq, true_and, and_true] at heq
  rw [← henc1, ← henc2, heq]

theorem decodeMeta_roundtrip_witness :
    (∃ cm, (tableOf 1 [MYSQL_TYPE_TINY, MYSQL_TYPE_STRING, MYSQL_TYPE_VARCHAR,
          MYSQL_TYPE_BLOB] []).decodeMeta [0xfe, 0x14, 0x2c, 0x01, 0x02] =
        .ok { tableOf 1 [MYSQL_TYPE_TINY, MYSQL_TYPE_STRING, MYSQL_TYPE_VARCHAR,
          MYSQL_TYPE_BLOB] [] with ColumnMeta := cm } ∧
      encodeMeta (tableOf 1 [MYSQL_TYPE_TINY, MYSQL_TYPE_STRING, MYSQL_TYPE_VARCHAR,
          MYSQL_TYPE_BLOB] []).ColumnType cm = [0xfe, 0x14, 0x2c, 0x01, 0x02]) ∧
    encodeMeta [MYSQL_TYPE_TINY, MYSQL_TYPE_STRING, MYSQL_TYPE_VARCHAR, MYSQL_TYPE_BLOB]
      [0, 0xfe14, 0x012c, 2] = [0xfe, 0x14, 0x2c, 0x01, 0x02] :=
  ⟨(decodeMeta_roundtrip (tableOf 1 [MYSQL_TYPE_TINY, MYSQL_TYPE_STRING, MYSQL_TYPE_VARCHAR,
      MYSQL_TYPE_BLOB] []) [0xfe, 0x14, 0x2c, 0x01, 0x02]
      (by decide) (by decide) (by decide) (by decide) (by decide)).1, by decide⟩

theorem index_append {d r : Bytes} {i x : Nat} (h : index d i = some x) :
    index (d ++ r) i = some x := by
  simp only [index] at h ⊢
  have hi := (List.getElem?_eq_some_iff.mp h).1
  rw [List.getElem?_append_left hi, h]

theorem take_drop_append (d r : Bytes) (a k : Nat) (h : a + k ≤ d.length) :
    ((d ++ r).drop a).take k = (d.drop a).take k := by
  rw [List.drop_append_of_le_length (by omega), List.take_append_of_le_length]
  simp only [List.length_drop]
  omega

theorem slice_append {d r v : Bytes} {lo hi : Int} (h : slice d lo hi = some v) :
    slice (d ++ r) lo hi = some v := by
  obtain ⟨h0, h1, h2, -, rfl⟩ := slice_some h
  have hc : 0 ≤ lo ∧ lo ≤ hi ∧ hi ≤ ((d ++ r).length : Int) := by
    refine ⟨h0, h1, ?_⟩
    simp only [List.length_append]
    omega
  simp only [slice]
  rw [if_pos hc, take_drop_append d r _ _ (by omega)]

theorem sliceFrom_append {d r a : Bytes} {pos : Nat} (h : sliceFrom d pos = some a) :
    sliceFrom (d ++ r) pos = some (a ++ r) := by
  obtain ⟨hle, rfl⟩ := sliceFrom_some h
  simp only [sliceFrom, List.length_append]
  rw [if_pos (by omega), List.drop_append_of_le_length hle]

theorem littleEndianUint16_append {d r : Bytes} {x : Nat} (h : littleEndianUint16 d = some x) :
    littleEndianUint16 (d ++ r) = some x := by
  simp only [littleEndianUint16] at h ⊢
  split at h
  · rename_i hl
    rw [if_pos (by simp only [List.length_append]; omega),
      List.take_append_of_le_length hl]
    exact h
  · simp at h

theorem LengthEncodedInt_append {d r : Bytes} {x : Nat × Bool × Nat}
    (h : LengthEncodedInt d = some x) : LengthEncodedInt (d ++ r) = some x := by
  unfold LengthEncodedInt at h ⊢
  split at h
  · simp at h
  · rename_i b0 hb0
    rw [index_append hb0]
    simp only
    have hlen : (d ++ r).length = d.length + r.length := List.length_append _ _
    split_ifs at h ⊢ with h1 h2 h3 h4 h5 h6 h7 h8 h9 h10 <;>
      first
        | exact h
        | (exfalso; omega)
        | (rw [take_drop_append d r 1 _ (by omega)]; exact h)

theorem LengthEnodedString_append {b r : Bytes} {x : Option Bytes × Bool × Nat}
    (h : LengthEnodedString b = .ok x) : LengthEnodedString (b ++ r) = .ok x := by
  unfold LengthEnodedString at h ⊢
  split at h
  · simp at h
  · rename_i num isNull n hint
    rw [LengthEncodedInt_append hint]
    simp only
    by_cases h1 : num < 1
    · simpa only [h1, if_true] using h
    · simp only [h1, if_false] at h ⊢
      by_cases h2 : n + num ≤ b.length
      · have h3 : n + num ≤ (b ++ r).length := by
          simp only [List.length_append]; omega
        simp only [h2, if_true] at h
        simp only [h3, if_true, take_drop_append b r n num h2]
        exact h
      · simp only [h2, if_false] at h
        simp at h

theorem TableMapEvent_decodeHead_append {e : TableMapEvent} {d r : Bytes}
    {x : TableMapEvent × Nat} (h : e.decodeHead d = some x) :
    e.decodeHead (d ++ r) = some x := by
  simp only [TableMapEvent.decodeHead, bind, Option.bind_eq_some, pure] at h ⊢
  obtain ⟨b, hb, fl, ⟨a1, ha1, hfl⟩, sl, hsl, sch, hsch, tl, htl, tb, htb, cnt,
    ⟨a2, ha2, hcnt⟩, ct, hct, hres⟩ := h
  exact ⟨b, slice_append hb, fl,
    ⟨a1 ++ r, sliceFrom_append ha1, littleEndianUint16_append hfl⟩,
    sl, index_append hsl, sch, slice_append hsch, tl, index_append htl, tb,
    slice_append htb, cnt, ⟨a2 ++ r, sliceFrom_append ha2, LengthEncodedInt_append hcnt⟩,
    ct, slice_append hct, hres⟩

/-- C18 (counterexample): the first 4 bytes of a TABLE_MAP body on which
`Decode` succeeds, with a table identifier of 6 bytes, make `Decode` panic on
the slice expression `data[0:e.TableIDSize]`: it does not return an error.
The first 17 of the 18 bytes, cut in the null bitmap, give the error
`io.EOF`. -/
theorem Decode_truncated_panics :
    (emptyTableMap 6).Decode tinyTableMapBody = .ok (tableOf 1 [MYSQL_TYPE_TINY] [0]) ∧
    (emptyTableMap 6).Decode (tinyTableMapBody.take 4) = .panic ∧
    (emptyTableMap 6).Decode (tinyTableMapBody.take 17) =
      .error { tableOf 1 [MYSQL_TYPE_TINY] [0] with NullBitmap := [] } .eof := by
  decide

/-- C18 (amended): on every strict, initial part of a TABLE_MAP body on which
`TableMapEvent.Decode` succeeds, `Decode` does not succeed: it returns an
error or it panics on an out-of-range index or slice expression. -/
theorem Decode_truncated_not_ok (e e1 : TableMapEvent) (body rest : Bytes)
    (hrest : rest ≠ []) (hok : e.Decode (body ++ rest) = .ok e1) :
    (∃ e2 err, e.Decode body = .error e2 err) ∨ e.Decode body = .panic := by
  cases hbody : e.Decode body with
  | panic => exact Or.inr rfl
  | error e2 err => exact Or.inl ⟨e2, err, rfl⟩
  | ok e2 =>
    exfalso
    simp only [TableMapEvent.Decode] at hbody
    split at hbody
    · simp at hbody
    · rename_i e3 pos hhead
      obtain ⟨-, hcc, hpos⟩ := decodeHead_some hhead
      have hfrom : sliceFrom body pos = some (body.drop pos) := by
        simp only [sliceFrom]; rw [if_pos hpos]
      rw [hfrom] at hbody
      simp only [Option.elim] at hbody
      split at hbody
      · simp at hbody
      · simp at hbody
      · rename_i metaData isNull n hstr
        split at hbody
        · simp at hbody
        · simp at hbody
        · rename_i e4 hmeta
          obtain ⟨cm, rfl, -⟩ := decodeMeta_ok hmeta
          simp only at hbody
          split at hbody
          · simp at hbody
          · rename_i tail htail
            obtain ⟨hle, rfl⟩ := sliceFrom_some htail
            split at hbody
            · simp at hbody
            · rename_i hsize
              simp only [ne_eq, Decidable.not_not] at hsize
              have hfrom2 : sliceFrom (body ++ rest) pos = some (body.drop pos ++ rest) :=
                sliceFrom_append hfrom
              have hfrom3 : sliceFrom (body ++ rest) (pos + n) =
                  some (body.drop (pos + n) ++ rest) := sliceFrom_append htail
              have hne : ((body.drop (pos + n) ++ rest).length : Int) ≠
                  bitmapByteSize (toInt64 e3.ColumnCount) := by
                rw [← hsize]
                have : 0 < rest.length := List.length_pos.mpr hrest
                simp only [List.length_append]
                omega
              simp only [TableMapEvent.Decode, TableMapEvent_decodeHead_append hhead, hfrom2,
                Option.elim, LengthEnodedString_append hstr, hmeta, hfrom3] at hok
              rw [if_pos hne] at hok
              simp at hok

theorem Decode_truncated_not_ok_witness :
    (∃ e2 err, (emptyTableMap 6).Decode (tinyTableMapBody.take 17) = .error e2 err) ∨
      (emptyTableMap 6).Decode (tinyTableMapBody.take 17) = .panic :=
  Decode_truncated_not_ok (emptyTableMap 6) (tableOf 1 [MYSQL_TYPE_TINY] [0])
    (tinyTableMapBody.take 17) [0] (by decide) (by decide)

theorem decodeRowsLoop_agree (table table' : TableMapEvent)
    (bitmap data nullBitmap : Bytes) :
    ∀ (k i : Nat) (rows : RowImage) (pos nbi : Nat),
      (∀ j, i ≤ j → j < i + k → index table'.ColumnType j = index table.ColumnType j ∧
        index table'.ColumnMeta j = index table.ColumnMeta j) →
      decodeRowsLoop table' bitmap data nullBitmap k i rows pos nbi =
        decodeRowsLoop table bitmap data nullBitmap k i rows pos nbi := by
  intro k
  induction k with
  | zero =>
    intro i rows pos nbi _
    rw [decodeRowsLoop, decodeRowsLoop]
  | succ k ih =>
    intro i rows pos nbi hag
    obtain ⟨h1, h2⟩ := hag i (le_refl _) (by omega)
    have ih' := fun rows pos nbi => ih (i + 1) rows pos nbi
      (fun j hj1 hj2 => hag j (by omega) (by omega))
    rw [decodeRowsLoop, decodeRowsLoop]
    simp only [h1, h2, ih']

theorem decodeRows_agree (e : RowsEvent) (data : Bytes) (table table' : TableMapEvent)
    (bitmap : Bytes)
    (hag : ∀ j, j < e.ColumnCount → index table'.ColumnType j = index table.ColumnType j ∧
      index table'.ColumnMeta j = index table.ColumnMeta j) :
    e.decodeRows data table' bitmap = e.decodeRows data table bitmap := by
  have hle : e.ColumnCount % 2 ^ 64 ≤ e.ColumnCount := Nat.mod_le _ _
  have hloop := fun nullBitmap rows pos =>
    decodeRowsLoop_agree table table' bitmap data nullBitmap (e.ColumnCount % 2 ^ 64) 0 rows
      pos 0 (fun j _ hj => hag j (by omega))
  unfold RowsEvent.decodeRows
  simp only [hloop]

theorem decodeRows_keeps_count {e e' : RowsEvent} {data : Bytes} {table : TableMapEvent}
    {bitmap : Bytes} {n : Nat} (h : e.decodeRows data table bitmap = .ok (e', n)) :
    e'.ColumnCount = e.ColumnCount := by
  unfold RowsEvent.decodeRows at h
  split at h
  · simp at h
  · simp only at h
    split at h
    · simp at h
    · split at h
      · simp at h
      · simp only [Ret.ok.injEq, Prod.mk.injEq] at h
        rw [← h.1]
      · simp only [Ret.ok.injEq, Prod.mk.injEq] at h
        rw [← h.1]

theorem rowLoop_agree (table table' : TableMapEvent) (data : Bytes) :
    ∀ (fuel : Nat) (e : RowsEvent) (pos : Nat),
      (∀ j, j < e.ColumnCount → index table'.ColumnType j = index table.ColumnType j ∧
        index table'.ColumnMeta j = index table.ColumnMeta j) →
      RowsEvent.rowLoop table' data fuel e pos = RowsEvent.rowLoop table data fuel e pos := by
  intro fuel
  induction fuel with
  | zero =>
    intro e pos _
    rw [RowsEvent.rowLoop, RowsEvent.rowLoop]
  | succ fuel ih =>
    intro e pos hag
    have h1 : ∀ d bm, e.decodeRows d table' bm = e.decodeRows d table bm :=
      fun d bm => decodeRows_agree e d table table' bm hag
    rw [RowsEvent.rowLoop, RowsEvent.rowLoop]
    simp only [h1]
    split
    · cases hres : (sliceFrom data pos).elim Ret.panic
          (fun d => e.decodeRows d table e.ColumnBitmap1) with
      | panic => rfl
      | error x err => rfl
      | ok x =>
        obtain ⟨e2, n⟩ := x
        have hcc : e2.ColumnCount = e.ColumnCount := by
          cases hs : sliceFrom data pos with
          | none => simp [hs] at hres
          | some d =>
            simp only [hs, Option.elim] at hres
            exact decodeRows_keeps_count hres
        have hag2 : ∀ j, j < e2.ColumnCount →
            index table'.ColumnType j = index table.ColumnType j ∧
              index table'.ColumnMeta j = index table.ColumnMeta j := by
          rw [hcc]; exact hag
        have h2 : ∀ d bm, e2.decodeRows d table' bm = e2.decodeRows d table bm :=
          fun d bm => decodeRows_agree e2 d table table' bm hag2
        simp only [h2]
        split
        · cases hres2 : (sliceFrom data (pos + n)).elim Ret.panic
              (fun d => e2.decodeRows d table e2.ColumnBitmap2) with
          | panic => rfl
          | error x err => rfl
          | ok x =>
            obtain ⟨e3, n3⟩ := x
            have hcc3 : e3.ColumnCount = e2.ColumnCount := by
              cases hs : sliceFrom data (pos + n) with
              | none => simp [hs] at hres2
              | some d =>
                simp only [hs, Option.elim] at hres2
                exact decodeRows_keeps_count hres2
            simp only
            exact ih e3 _ (by rw [hcc3]; exact hag2)
        · exact ih e2 _ hag2
    · rfl

/-- C19 (counterexample): a Rows event that declares 1 column against a
schema of 2 columns is decoded with success, and one that declares 2 columns
against a schema of 1 column makes `Decode` panic on the index
`table.ColumnType[1]`; neither is rejected with an error. -/
theorem Decode_column_count_mismatch :
    RowsEvent.Decode 1
        (emptyRows 1 (registryOf (tableOf 1 [MYSQL_TYPE_TINY, MYSQL_TYPE_TINY] [0, 0])) false)
        (rowsBody [1,  0x01,  0x00, 0x2A]) =
      some (.ok { emptyRows 1
          (registryOf (tableOf 1 [MYSQL_TYPE_TINY, MYSQL_TYPE_TINY] [0, 0])) false with
        Table := some (tableOf 1 [MYSQL_TYPE_TINY, MYSQL_TYPE_TINY] [0, 0]), TableID := 1,
        ColumnCount := 1, ColumnBitmap1 := [0x01], Rows := [[some [0x2A]]] }) ∧
    RowsEvent.Decode 1 (emptyRows 1 (registryOf (tableOf 1 [MYSQL_TYPE_TINY] [0])) false)
        (rowsBody [2,  0x03,  0x00, 0x2A, 0x2B]) = some .panic := by
  decide

/-- C19 (amended): `RowsEvent.Decode` makes no comparison between the
declared column count and the column count of the referenced schema. Once the
header is decoded and the table identifier resolves, `Decode` is the row loop
against the schema, and the row loop reads the column types and metadata of the
schema only at positions below the declared column count: its outcome is the
same against every schema that agrees with the referenced one at those
positions. When the declared column count is at most the number of column
types and of metadata values of the schema, every such position is in range;
and a present, non-null column at a position at or beyond one of these numbers
makes the column loop of `decodeRows` panic on the out-of-range index. -/
theorem Decode_column_count_unchecked (fuel : Nat) (e e1 : RowsEvent) (data : Bytes)
    (pos : Nat) (table : TableMapEvent)
    (hhead : e.decodeHead data = some (e1, pos))
    (hkey : e.Tables.lookup e1.TableID = some table) :
    RowsEvent.Decode fuel e data =
      RowsEvent.rowLoop table data fuel { e1 with Table := some table } pos ∧
    (∀ table' : TableMapEvent,
      (∀ i, i < e1.ColumnCount → index table'.ColumnType i = index table.ColumnType i ∧
        index table'.ColumnMeta i = index table.ColumnMeta i) →
      RowsEvent.rowLoop table' data fuel { e1 with Table := some table } pos =
        RowsEvent.rowLoop table data fuel { e1 with Table := some table } pos) ∧
    (e1.ColumnCount ≤ table.ColumnType.length → e1.ColumnCount ≤ table.ColumnMeta.length →
      ∀ i, i < e1.ColumnCount →
        ∃ tp m, index table.ColumnType i = some tp ∧ index table.ColumnMeta i = some m) ∧
    (∀ (bitmap row nullBitmap : Bytes) (k i : Nat) (rows : RowImage)
      (pos nullbitIndex b g : Nat),
      index nullBitmap (nullbitIndex / 8) = some b →
      ((b % 4294967296) >>> (nullbitIndex % 8)) &&& 0x01 = 0 →
      bitGet bitmap i = some g → g ≠ 0 →
      table.ColumnType.length ≤ i ∨ table.ColumnMeta.length ≤ i →
      decodeRowsLoop table bitmap row nullBitmap (k + 1) i rows pos nullbitIndex = .panic) := by
  obtain ⟨-, htables, -⟩ := RowsEvent_decodeHead_keeps hhead
  refine ⟨?_, ?_, ?_, ?_⟩
  · simp only [RowsEvent.Decode, hhead, htables, hkey]
  · intro table' hag
    exact rowLoop_agree table table' data fuel _ pos hag
  · intro h1 h2 i hi
    have ht : i < table.ColumnType.length := by omega
    have hm : i < table.ColumnMeta.length := by omega
    exact ⟨table.ColumnType[i], table.ColumnMeta[i], by simp [index, ht], by simp [index, hm]⟩
  · intro bitmap row nullBitmap k i rows pos nbi b g hb hnull hg hg0 hi
    rw [decodeRowsLoop]
    simp only [hb, hg, hg0, if_false, hnull]
    split
    · rename_i h1
      exact absurd h1 (by decide)
    · rcases hi with hi | hi
      · have hnone : index table.ColumnType i = none := by
          simp only [index]
          exact List.getElem?_eq_none hi
        rw [hnone]
        cases sliceFrom row pos <;> cases index table.ColumnMeta i <;> rfl
      · have hnone : index table.ColumnMeta i = none := by
          simp only [index]
          exact List.getElem?_eq_none hi
        rw [hnone]
        cases sliceFrom row pos <;> cases index table.ColumnType i <;> rfl

theorem Decode_column_count_unchecked_witness :
    (emptyRows 1 (registryOf (tableOf 1 [MYSQL_TYPE_TINY, MYSQL_TYPE_SHORT] [0, 0]))
        false).decodeHead (rowsBody [1,  0x01,  0x00, 0x2A]) =
      some ({ emptyRows 1 (registryOf (tableOf 1 [MYSQL_TYPE_TINY, MYSQL_TYPE_SHORT] [0, 0]))
          false with TableID := 1, ColumnCount := 1, ColumnBitmap1 := [0x01] }, 10) ∧
    RowsEvent.Decode 1
        (emptyRows 1 (registryOf (tableOf 1 [MYSQL_TYPE_TINY, MYSQL_TYPE_SHORT] [0, 0])) false)
        (rowsBody [1,  0x01,  0x00, 0x2A]) =
      RowsEvent.rowLoop (tableOf 1 [MYSQL_TYPE_TINY, MYSQL_TYPE_SHORT] [0, 0])
        (rowsBody [1,  0x01,  0x00, 0x2A]) 1
        { emptyRows 1 (registryOf (tableOf 1 [MYSQL_TYPE_TINY, MYSQL_TYPE_SHORT] [0, 0]))
            false with
          TableID := 1, ColumnCount := 1, ColumnBitmap1 := [0x01],
          Table := some (tableOf 1 [MYSQL_TYPE_TINY, MYSQL_TYPE_SHORT] [0, 0]) } 10 ∧
    RowsEvent.rowLoop (tableOf 1 [MYSQL_TYPE_TINY] [0]) (rowsBody [1,  0x01,  0x00, 0x2A]) 1
        { emptyRows 1 (registryOf (tableOf 1 [MYSQL_TYPE_TINY, MYSQL_TYPE_SHORT] [0, 0]))
            false with
          TableID := 1, ColumnCount := 1, ColumnBitmap1 := [0x01],
          Table := some (tableOf 1 [MYSQL_TYPE_TINY, MYSQL_TYPE_SHORT] [0, 0]) } 10 =
      RowsEvent.rowLoop (tableOf 1 [MYSQL_TYPE_TINY, MYSQL_TYPE_SHORT] [0, 0])
        (rowsBody [1,  0x01,  0x00, 0x2A]) 1
        { emptyRows 1 (registryOf (tableOf 1 [MYSQL_TYPE_TINY, MYSQL_TYPE_SHORT] [0, 0]))
            false with
          TableID := 1, ColumnCount := 1, ColumnBitmap1 := [0x01],
          Table := some (tableOf 1 [MYSQL_TYPE_TINY, MYSQL_TYPE_SHORT] [0, 0]) } 10 ∧
    decodedRows (RowsEvent.Decode 1
        (emptyRows 1 (registryOf (tableOf 1 [MYSQL_TYPE_TINY, MYSQL_TYPE_SHORT] [0, 0])) false)
        (rowsBody [1,  0x01,  0x00, 0x2A])) = some [[some [0x2A]]] :=
  ⟨by decide,
   (Decode_column_count_unchecked 1
      (emptyRows 1 (registryOf (tableOf 1 [MYSQL_TYPE_TINY, MYSQL_TYPE_SHORT] [0, 0])) false)
      { emptyRows 1 (registryOf (tableOf 1 [MYSQL_TYPE_TINY, MYSQL_TYPE_SHORT] [0, 0]))
          false with TableID := 1, ColumnCount := 1, ColumnBitmap1 := [0x01] }
      (rowsBody [1,  0x01,  0x00, 0x2A]) 10
      (tableOf 1 [MYSQL_TYPE_TINY, MYSQL_TYPE_SHORT] [0, 0]) (by decide) (by decide)).1,
   (Decode_column_count_unchecked 1
      (emptyRows 1 (registryOf (tableOf 1 [MYSQL_TYPE_TINY, MYSQL_TYPE_SHORT] [0, 0])) false)
      { emptyRows 1 (registryOf (tableOf 1 [MYSQL_TYPE_TINY, MYSQL_TYPE_SHORT] [0, 0]))
          false with TableID := 1, ColumnCount := 1, ColumnBitmap1 := [0x01] }
      (rowsBody [1,  0x01,  0x00, 0x2A]) 10
      (tableOf 1 [MYSQL_TYPE_TINY, MYSQL_TYPE_SHORT] [0, 0]) (by decide) (by decide)).2.1
      (tableOf 1 [MYSQL_TYPE_TINY] [0]) (by decide),
   by decide⟩

theorem RowsEvent_decodeBitmap2_fields {e e1 : RowsEvent} {data : Bytes} {pos pos1 : Nat}
    {bitCount : Int} (h : e.decodeBitmap2 data pos bitCount = some (e1, pos1)) :
    e1.ColumnCount = e.ColumnCount ∧ e1.ExtraData = e.ExtraData := by
  unfold RowsEvent.decodeBitmap2 at h
  split at h
  · simp only [bind, Option.bind_eq_some, pure, Option.some.injEq, Prod.mk.injEq] at h
    obtain ⟨_, _, rfl, _⟩ := h
    exact ⟨rfl, rfl⟩
  · simp only [pure, Option.some.injEq, Prod.mk.injEq] at h
    obtain ⟨rfl, _⟩ := h
    exact ⟨rfl, rfl⟩

theorem sliceFrom_uint16 (data : Bytes) (pos b0 b1 : Nat) (hbytes : ∀ b ∈ data, b < 256)
    (h0 : data[pos]? = some b0) (h1 : data[pos + 1]? = some b1) :
    (sliceFrom data pos).bind littleEndianUint16 = some (b0 + 256 * b1) := by
  have hlt : pos + 1 < data.length := (List.getElem?_eq_some_iff.mp h1).1
  have hb0 : b0 < 256 := hbytes b0 (List.getElem?_mem h0)
  have hb1 : b1 < 256 := hbytes b1 (List.getElem?_mem h1)
  have hl : 2 ≤ (data.drop pos).length := by simp; omega
  simp only [sliceFrom, show pos ≤ data.length by omega, if_true, Option.some_bind,
    littleEndianUint16, hl, leUint_take_two _ hl, List.getD_eq_getElem?_getD,
    List.getElem?_drop, Nat.add_zero, h0, h1, Option.getD_some, Option.some.injEq]
  omega

theorem slice_nat (data : Bytes) (a k : Nat) :
    slice data (a : Int) ((a : Int) + (k : Int)) =
      if a + k ≤ data.length then some ((data.drop a).take k) else none := by
  have e1 : (a : Int).toNat = a := Int.toNat_ofNat a
  have e2 : ((a : Int) + (k : Int)).toNat = a + k := by omega
  have e3 : a + k - a = k := by omega
  by_cases h : a + k ≤ data.length
  · have hc : (0 : Int) ≤ (a : Int) ∧ (a : Int) ≤ (a : Int) + (k : Int) ∧
        (a : Int) + (k : Int) ≤ (data.length : Int) := by omega
    simp only [slice]
    rw [if_pos hc, if_pos h, e1, e2, e3]
  · have hc : ¬ ((0 : Int) ≤ (a : Int) ∧ (a : Int) ≤ (a : Int) + (k : Int) ∧
        (a : Int) + (k : Int) ≤ (data.length : Int)) := by omega
    simp only [slice]
    rw [if_neg hc, if_neg h]

theorem decodeExtraData_version2 (e : RowsEvent) (data : Bytes) (pos b0 b1 : Nat)
    (hbytes : ∀ b ∈ data, b < 256) (hv : e.Version = 2)
    (h0 : data[pos]? = some b0) (h1 : data[pos + 1]? = some b1)
    (hL : 2 ≤ b0 + 256 * b1) :
    (pos + (b0 + 256 * b1) ≤ data.length →
      e.decodeExtraData data pos =
        some ({ e with ExtraData := (data.drop (pos + 2)).take (b0 + 256 * b1 - 2) },
          pos + (b0 + 256 * b1))) ∧
    (∀ e1 q, e.decodeExtraData data pos = some (e1, q) →
      e1 = { e with ExtraData := (data.drop (pos + 2)).take (b0 + 256 * b1 - 2) } ∧
        q = pos + (b0 + 256 * b1)) := by
  have hb0 : b0 < 256 := hbytes b0 (List.getElem?_mem h0)
  have hb1 : b1 < 256 := hbytes b1 (List.getElem?_mem h1)
  have hlen := sliceFrom_uint16 data pos b0 b1 hbytes h0 h1
  have hextra : (b0 + 256 * b1 + 65536 - 2) % 65536 = b0 + 256 * b1 - 2 := by omega
  have hq : pos + 2 + (b0 + 256 * b1 - 2) = pos + (b0 + 256 * b1) := by omega
  have hdef : e.decodeExtraData data pos =
      (if pos + 2 + (b0 + 256 * b1 - 2) ≤ data.length then
          some ((data.drop (pos + 2)).take (b0 + 256 * b1 - 2)) else none).bind
        (fun extraData => some ({ e with ExtraData := extraData },
          pos + (b0 + 256 * b1))) := by
    simp only [RowsEvent.decodeExtraData, hv, if_true, bind, hlen, Option.some_bind, hextra,
      pure, slice_nat, hq]
  constructor
  · intro hfit
    rw [hdef, if_pos (by omega)]
    rfl
  · intro e1 q h
    rw [hdef] at h
    split at h
    · simp only [Option.some_bind, Option.some.injEq, Prod.mk.injEq] at h
      exact ⟨h.1.symm, h.2.symm⟩
    · simp at h

theorem decodeExtraData_other_version (e : RowsEvent) (data : Bytes) (pos : Nat)
    (hv : e.Version ≠ 2) : e.decodeExtraData data pos = some (e, pos) := by
  simp only [RowsEvent.decodeExtraData, hv, if_false, pure]

/-- C20 (counterexample): on a version 2 body whose extra-data length field
holds 0, or 1, the number of extra-data bytes is `dataLen-2` computed in
`uint16`, that is 65534, or 65535: on a body of 14 bytes the slice expression
is out of range and `Decode` panics, instead of reading the column count at
offset `TableIDSize + 2 + L`. -/
theorem Decode_extra_length_wraps :
    ((0 + 65536 - 2) % 65536 = 65534 ∧ (1 + 65536 - 2) % 65536 = 65535) ∧
    (emptyRows 2 (registryOf (tableOf 1 [MYSQL_TYPE_TINY] [0])) false).decodeExtraData
        (rowsBody [0, 0,  1,  0x01,  0x00, 0x2A]) 8 = none ∧
    RowsEvent.Decode 1 (emptyRows 2 (registryOf (tableOf 1 [MYSQL_TYPE_TINY] [0])) false)
        (rowsBody [0, 0,  1,  0x01,  0x00, 0x2A]) = some .panic ∧
    RowsEvent.Decode 1 (emptyRows 2 (registryOf (tableOf 1 [MYSQL_TYPE_TINY] [0])) false)
        (rowsBody [1, 0,  1,  0x01,  0x00, 0x2A]) = some .panic := by
  decide

/-- C20 (amended): on every version 2 Rows event body of well-formed bytes
whose 2-byte little-endian extra-data length field holds a value `L` of at
least 2 and whose header is decoded without a panic, `RowsEvent.Decode` takes
the `L-2` bytes after that field as `ExtraData` and reads the declared column
count at offset `TableIDSize + 2 + L`; for the other versions no extra-data
field is read and the column count is at offset `TableIDSize + 2`. -/
theorem decodeHead_extra_data (e e1 : RowsEvent) (data : Bytes) (p : Nat)
    (hbytes : ∀ b ∈ data, b < 256) (hhead : e.decodeHead data = some (e1, p)) :
    (e.Version = 2 → ∀ b0 b1,
      data[e.TableIDSize.toNat + 2]? = some b0 → data[e.TableIDSize.toNat + 3]? = some b1 →
      2 ≤ b0 + 256 * b1 →
      e1.ExtraData = (data.drop (e.TableIDSize.toNat + 4)).take (b0 + 256 * b1 - 2) ∧
      ∃ isNull n, LengthEncodedInt (data.drop (e.TableIDSize.toNat + 2 + (b0 + 256 * b1))) =
        some (e1.ColumnCount, isNull, n)) ∧
    (e.Version ≠ 2 →
      e1.ExtraData = e.ExtraData ∧
      ∃ isNull n, LengthEncodedInt (data.drop (e.TableIDSize.toNat + 2)) =
        some (e1.ColumnCount, isNull, n)) := by
  simp only [RowsEvent.decodeHead, bind, Option.bind_eq_some, pure, Nat.zero_add] at hhead
  obtain ⟨b, -, fl, -, ⟨e0, q⟩, hextra, ⟨cnt, isNull, n⟩, ⟨a, ha, hcnt⟩, bm1, -, hbm⟩ := hhead
  obtain ⟨hcc, hed⟩ := RowsEvent_decodeBitmap2_fields hbm
  obtain ⟨-, rfl⟩ := sliceFrom_some ha
  simp only at hcc hed hcnt
  constructor
  · intro hv b0 b1 h0 h1 hL
    obtain ⟨-, hsome⟩ := decodeExtraData_version2
      { e with TableID := FixedLengthInt b, Flags := fl } data (e.TableIDSize.toNat + 2) b0 b1
      hbytes hv h0 h1 hL
    obtain ⟨rfl, rfl⟩ := hsome e0 q hextra
    exact ⟨hed, isNull, n, by rw [hcc]; exact hcnt⟩
  · intro hv
    have := decodeExtraData_other_version
      { e with TableID := FixedLengthInt b, Flags := fl } data (e.TableIDSize.toNat + 2) hv
    rw [this] at hextra
    simp only [Option.some.injEq, Prod.mk.injEq] at hextra
    obtain ⟨rfl, rfl⟩ := hextra
    exact ⟨hed, isNull, n, by rw [hcc]; exact hcnt⟩

theorem decodeHead_extra_data_witness :
    [0xAA, 0xBB] = ((rowsBody [4, 0,  0xAA, 0xBB,  1,  0x01,  0x00, 0x2A]).drop 10).take 2 ∧
      ∃ isNull n,
        LengthEncodedInt ((rowsBody [4, 0,  0xAA, 0xBB,  1,  0x01,  0x00, 0x2A]).drop 12) =
          some (1, isNull, n) :=
  (decodeHead_extra_data (emptyRows 2 (registryOf (tableOf 1 [MYSQL_TYPE_TINY] [0])) false)
    { emptyRows 2 (registryOf (tableOf 1 [MYSQL_TYPE_TINY] [0])) false with
      TableID := 1, ExtraData := [0xAA, 0xBB], ColumnCount := 1, ColumnBitmap1 := [0x01] }
    (rowsBody [4, 0,  0xAA, 0xBB,  1,  0x01,  0x00, 0x2A]) 14 (by decide) (by decide)).1
    rfl 4 0 (by decide) (by decide) (by decide)

theorem isNull_pos_iff (b r : Nat) :
    (((b % 4294967296) >>> (r % 8)) &&& 0x01 > 0) ↔ b.testBit (r % 8) = true := by
  have hk : r % 8 < 32 := by omega
  have h1 : (b % 4294967296).testBit (r % 8) = b.testBit (r % 8) := by
    have := Nat.testBit_mod_two_pow b 32 (r % 8)
    simpa [hk] using this
  rw [← h1, Nat.testBit_to_div_mod, Nat.and_one_is_mod, Nat.shiftRight_eq_div_pow]
  simp only [decide_eq_true_eq]
  omega

theorem nullBitIndex_succ (bitmap : Bytes) (i : Nat) :
    nullBitIndex bitmap (i + 1) = nullBitIndex bitmap i + if isPresent bitmap i then 1 else 0 := by
  unfold nullBitIndex
  rw [List.range'_concat, List.countP_append]
  simp [List.countP_cons]

theorem cursor_chain_cons (Q : Nat → Nat → Nat → Prop) (i k pos pos1 pos' : Nat)
    (h0 : Q i pos pos1)
    (h : ∃ cur : Nat → Nat, cur (i + 1) = pos1 ∧ cur (i + 1 + k) = pos' ∧
      ∀ j, i + 1 ≤ j → j < i + 1 + k → Q j (cur j) (cur (j + 1))) :
    ∃ cur : Nat → Nat, cur i = pos ∧ cur (i + (k + 1)) = pos' ∧
      ∀ j, i ≤ j → j < i + (k + 1) → Q j (cur j) (cur (j + 1)) := by
  obtain ⟨cur, h1, h2, h3⟩ := h
  refine ⟨fun j => if j = i then pos else cur j, by simp, ?_, ?_⟩
  · have : i + (k + 1) ≠ i := by omega
    simp only [this, if_false]
    rw [← h2]
    congr 1
    omega
  · intro j hj1 hj2
    by_cases hji : j = i
    · subst hji
      have : j + 1 ≠ j := by omega
      simp only [this, if_false, if_true, h1]
      exact h0
    · have : j + 1 ≠ i := by omega
      simp only [hji, this, if_false]
      exact h3 j (by omega) (by omega)


theorem decodeRowsLoop_entries (table : TableMapEvent) (bitmap data nullBitmap : Bytes)
    (rows' : RowImage) (pos' : Nat) :
    ∀ (k i : Nat) (rows : RowImage) (pos nbi : Nat),
      decodeRowsLoop table bitmap data nullBitmap k i rows pos nbi = .done rows' pos' →
      nbi = nullBitIndex bitmap i →
      (∀ j, i ≤ j → j < i + k → rows[j]? = some none) →
      (∀ j, j < i → rows'[j]? = rows[j]?) ∧
      ∃ cur : Nat → Nat, cur i = pos ∧ cur (i + k) = pos' ∧
        ∀ j, i ≤ j → j < i + k →
          (isPresent bitmap j = false → rows'[j]? = some none ∧ cur (j + 1) = cur j) ∧
          (isPresent bitmap j = true → isNullBit nullBitmap (nullBitIndex bitmap j) = true →
            rows'[j]? = some none ∧ cur (j + 1) = cur j) ∧
          (isPresent bitmap j = true → isNullBit nullBitmap (nullBitIndex bitmap j) = false →
            ∃ tp m v n, index table.ColumnType j = some tp ∧
              index table.ColumnMeta j = some m ∧
              decodeValue (data.drop (cur j)) tp m = .ok (v, n) ∧
              rows'[j]? = some v ∧ cur (j + 1) = cur j + n) := by
  intro k
  induction k with
  | zero =>
    intro i rows pos nbi h _ _
    rw [decodeRowsLoop] at h
    simp only [RowPass.done.injEq] at h
    obtain ⟨rfl, rfl⟩ := h
    refine ⟨fun _ _ => rfl, fun _ => pos, rfl, rfl, ?_⟩
    intro j h1 h2
    omega
  | succ k ih =>
    intro i rows pos nbi h hn hrows
    have key := fun pos1 => cursor_chain_cons
        (fun j c c1 =>
          (isPresent bitmap j = false → rows'[j]? = some none ∧ c1 = c) ∧
          (isPresent bitmap j = true → isNullBit nullBitmap (nullBitIndex bitmap j) = true →
            rows'[j]? = some none ∧ c1 = c) ∧
          (isPresent bitmap j = true → isNullBit nullBitmap (nullBitIndex bitmap j) = false →
            ∃ tp m v n, index table.ColumnType j = some tp ∧
              index table.ColumnMeta j = some m ∧
              decodeValue (data.drop c) tp m = .ok (v, n) ∧
              rows'[j]? = some v ∧ c1 = c + n)) i k pos pos1 pos'
    rw [decodeRowsLoop] at h
    split at h
    · simp at h
    · rename_i b hb
      simp only at h
      have hbit : isNullBit nullBitmap nbi = b.testBit (nbi % 8) := by
        simp only [index] at hb
        simp only [isNullBit, List.getD_eq_getElem?_getD, hb, Option.getD_some]
      split at h
      · simp at h
      · rename_i present hget
        have hp : isPresent bitmap i = (present != 0) := by simp only [isPresent, hget]
        have hsucc := nullBitIndex_succ bitmap i
        split at h
        · rename_i h0
          have hp0 : isPresent bitmap i = false := by simp [hp, h0]
          obtain ⟨hbefore, hchain⟩ := ih (i + 1) rows pos nbi h
            (by rw [hsucc, hp0]; simpa using hn)
            (fun j h1 h2 => hrows j (by omega) (by omega))
          refine ⟨fun j hj => hbefore j (by omega), ?_⟩
          refine key pos ?_ hchain
          refine ⟨fun _ => ⟨?_, rfl⟩, fun h1 => ?_, fun h1 => ?_⟩
          · rw [hbefore i (by omega)]
            exact hrows i (by omega) (by omega)
          · rw [hp0] at h1; exact absurd h1 (by simp)
          · rw [hp0] at h1; exact absurd h1 (by simp)
        · rename_i hne
          have hp1 : isPresent bitmap i = true := by simp [hp, hne]
          have hn1 : nbi + 1 = nullBitIndex bitmap (i + 1) := by
            rw [hsucc, hp1, ← hn]; rfl
          split at h
          · rename_i hnull
            have hnb : isNullBit nullBitmap (nullBitIndex bitmap i) = true := by
              rw [← hn, hbit]
              exact (isNull_pos_iff b nbi).mp hnull
            split at h
            · simp at h
            · rename_i rows1 hassign
              have hlt : i < rows.length := by
                simp only [assign] at hassign
                split at hassign
                · assumption
                · simp at hassign
              have hset := assign_some hassign
              subst hset
              obtain ⟨hbefore, hchain⟩ := ih (i + 1) _ pos (nbi + 1) h hn1
                (fun j h1 h2 => by
                  rw [List.getElem?_set_ne (by omega)]
                  exact hrows j (by omega) (by omega))
              refine ⟨fun j hj => ?_, ?_⟩
              · rw [hbefore j (by omega), List.getElem?_set_ne (by omega)]
              · refine key pos ?_ hchain
                refine ⟨fun h1 => ?_, fun _ _ => ⟨?_, rfl⟩, fun _ h2 => ?_⟩
                · rw [hp1] at h1; exact absurd h1 (by simp)
                · rw [hbefore i (by omega), List.getElem?_set_self hlt]
                · rw [hnb] at h2; exact absurd h2 (by simp)
          · rename_i hnull
            have hnb : isNullBit nullBitmap (nullBitIndex bitmap i) = false := by
              rw [← hn, hbit]
              have := (isNull_pos_iff b nbi).not.mp hnull
              simpa using this
            split at h
            · rename_i d tp m hd htp hm
              obtain ⟨-, rfl⟩ := sliceFrom_some hd
              split at h
              · simp at h
              · simp at h
              · rename_i v n hval
                split at h
                · simp at h
                · rename_i rows1 hassign
                  have hlt : i < rows.length := by
                    simp only [assign] at hassign
                    split at hassign
                    · assumption
                    · simp at hassign
                  have hset := assign_some hassign
                  subst hset
                  obtain ⟨hbefore, hchain⟩ := ih (i + 1) _ (pos + n) (nbi + 1) h hn1
                    (fun j h1 h2 => by
                      rw [List.getElem?_set_ne (by omega)]
                      exact hrows j (by omega) (by omega))
                  refine ⟨fun j hj => ?_, ?_⟩
                  · rw [hbefore j (by omega), List.getElem?_set_ne (by omega)]
                  · refine key (pos + n) ?_ hchain
                    refine ⟨fun h1 => ?_, fun _ h2 => ?_, fun _ _ => ?_⟩
                    · rw [hp1] at h1; exact absurd h1 (by simp)
                    · rw [hnb] at h2; exact absurd h2 (by simp)
                    · refine ⟨tp, m, v, n, htp, hm, hval, ?_, rfl⟩
                      rw [hbefore i (by omega), List.getElem?_set_self hlt]
            · simp at h

theorem countP_isPresent_eq_bitCount (bitmap : Bytes) :
    ∀ n, 8 * bitmap.length ≤ n →
      (List.range' 0 n).countP (isPresent bitmap) = bitCount bitmap := by
  induction bitmap with
  | nil =>
    intro n _
    have : (List.range' 0 n).countP (isPresent []) = 0 := by
      rw [List.countP_eq_zero]
      intro a _
      simp [isPresent, bitGet, index]
    rw [this]
    rfl
  | cons b bs ih =>
    intro n hn
    have hlow : (List.range' 0 8).countP (isPresent (b :: bs)) = bitCountInByte b := by
      unfold bitCountInByte
      apply List.countP_congr
      intro j hj
      rw [List.mem_range'_1] at hj
      rw [isPresent_cons_low b bs j (by omega)]
    have hbc : bitCount (b :: bs) = bitCountInByte b + bitCount bs := by
      simp [bitCount]
    simp only [List.length_cons] at hn
    obtain ⟨m, rfl⟩ : ∃ m, n = m + 8 := ⟨n - 8, by omega⟩
    have happ := List.range'_append 0 8 m 1
    simp only [Nat.zero_add, Nat.one_mul] at happ
    rw [← happ, List.countP_append, hlow]
    have hmap := List.map_add_range' 8 0 m 1
    simp only [Nat.add_zero] at hmap
    rw [← hmap, List.countP_map]
    have hcongr : (List.range' 0 m).countP (isPresent (b :: bs) ∘ fun x => 8 + x) =
        (List.range' 0 m).countP (isPresent bs) := by
      apply List.countP_congr
      intro j _
      simp only [Function.comp, isPresent_cons_high]
    rw [hcongr, ih m (by omega), hbc]

theorem nullBitIndex_eq_bitCount (bitmap : Bytes) (c : Nat)
    (h : ∀ j, c ≤ j → isPresent bitmap j = false) :
    nullBitIndex bitmap c = bitCount bitmap := by
  have happ := List.range'_append 0 c (8 * bitmap.length) 1
  simp only [Nat.zero_add, Nat.one_mul] at happ
  have hzero : (List.range' c (8 * bitmap.length)).countP (isPresent bitmap) = 0 := by
    rw [List.countP_eq_zero]
    intro a ha
    rw [List.mem_range'_1] at ha
    simp [h a ha.1]
  have := countP_isPresent_eq_bitCount bitmap (8 * bitmap.length + c) (by omega)
  rw [← happ, List.countP_append, hzero] at this
  unfold nullBitIndex
  omega

theorem countP_absent (bitmap : Bytes) (c : Nat) :
    (List.range' 0 c).countP (fun i => !isPresent bitmap i) = c - nullBitIndex bitmap c := by
  have h := List.length_eq_countP_add_countP (isPresent bitmap) (List.range' 0 c)
  simp only [List.length_range'] at h
  unfold nullBitIndex
  have e : (List.range' 0 c).countP (fun i => !isPresent bitmap i) =
      (List.range' 0 c).countP (fun a => decide ¬isPresent bitmap a = true) := by
    apply List.countP_congr
    intro a _
    simp
  rw [e]
  omega

/-- C8 (amended): every row image `decodeRows` appends has exactly
`ColumnCount` entries, each `nil` or a byte segment, with no absent or null
tag: the entry of a column whose presence bit is unset (absent) is `nil`, the
entry of a present column whose bit in the null bitmap is set (null) is `nil`
too, and the entry of a present, non-null column is the value `decodeValue`
returns for the type tag and metadata of that column at the cursor, the cursor
starting after the null bitmap, advancing by the consumed bytes of each decoded
value and ending at the returned count. The number of columns whose presence
bit is set is at most the population count of the presence bitmap, and equal to
it when the bitmap has no bit set at or beyond `ColumnCount`; the number of
absent columns is `ColumnCount` minus that number; the number of entries that
are segments is at most the population count, and the number of `nil` entries
at least `ColumnCount` minus the population count. -/
theorem decodeRows_image_entries (e e' : RowsEvent) (data : Bytes) (table : TableMapEvent)
    (bitmap : Bytes) (n : Nat) (rows : RowImage)
    (hcount : e.ColumnCount < 2 ^ 64)
    (h : e.decodeRows data table bitmap = .ok (e', n))
    (himage : e'.Rows = e.Rows ++ [rows]) :
    rows.length = e.ColumnCount ∧
    (∃ cur : Nat → Nat, cur 0 = (bitCount bitmap + 7) / 8 ∧ cur e.ColumnCount = n ∧
      ∀ i, i < e.ColumnCount →
        (isPresent bitmap i = false → rows[i]? = some none ∧ cur (i + 1) = cur i) ∧
        (isPresent bitmap i = true →
          isNullBit (data.take ((bitCount bitmap + 7) / 8)) (nullBitIndex bitmap i) = true →
          rows[i]? = some none ∧ cur (i + 1) = cur i) ∧
        (isPresent bitmap i = true →
          isNullBit (data.take ((bitCount bitmap + 7) / 8)) (nullBitIndex bitmap i) = false →
          ∃ tp m v k, index table.ColumnType i = some tp ∧
            index table.ColumnMeta i = some m ∧
            decodeValue (data.drop (cur i)) tp m = .ok (v, k) ∧
            rows[i]? = some v ∧ cur (i + 1) = cur i + k)) ∧
    nullBitIndex bitmap e.ColumnCount ≤ bitCount bitmap ∧
    ((∀ j, e.ColumnCount ≤ j → isPresent bitmap j = false) →
      nullBitIndex bitmap e.ColumnCount = bitCount bitmap) ∧
    (List.range' 0 e.ColumnCount).countP (fun i => !isPresent bitmap i) =
      e.ColumnCount - nullBitIndex bitmap e.ColumnCount ∧
    rows.countP Option.isSome ≤ bitCount bitmap ∧
    e.ColumnCount - bitCount bitmap ≤ rows.countP Option.isNone := by
  cases hm : makeSlice e.ColumnCount (none : Option Bytes) with
  | none => simp only [RowsEvent.decodeRows, hm] at h; exact absurd h (by simp)
  | some rows0 =>
    cases hs : slice data ((0 : Nat) : Int)
        (((0 : Nat) : Int) + (((bitCount bitmap + 7) / 8 : Nat) : Int)) with
    | none => simp only [RowsEvent.decodeRows, hm, hs] at h; exact absurd h (by simp)
    | some nullBitmap =>
      cases hl : decodeRowsLoop table bitmap data nullBitmap (e.ColumnCount % 2 ^ 64) 0
          rows0 (0 + (bitCount bitmap + 7) / 8) 0 with
      | panic => simp only [RowsEvent.decodeRows, hm, hs, hl] at h; exact absurd h (by simp)
      | valueError =>
        simp only [RowsEvent.decodeRows, hm, hs, hl, Ret.ok.injEq, Prod.mk.injEq] at h
        obtain ⟨rfl, -⟩ := h
        have := congrArg List.length himage
        simp at this
      | done rows1 pos1 =>
        simp only [RowsEvent.decodeRows, hm, hs, hl, Ret.ok.injEq, Prod.mk.injEq] at h
        obtain ⟨rfl, hn⟩ := h
        simp only [List.append_cancel_left_eq, List.cons.injEq, and_true] at himage
        subst himage
        obtain ⟨hlen, hcnt⟩ := decodeRowsLoop_done _ _ _ _ _ _ _ _ _ _ _ hl
        have hmod : e.ColumnCount % 2 ^ 64 = e.ColumnCount := Nat.mod_eq_of_lt hcount
        have hnb : nullBitmap = data.take ((bitCount bitmap + 7) / 8) := by
          rw [slice_nat] at hs
          split at hs
          · simp only [Option.some.injEq, List.drop_zero] at hs
            exact hs.symm
          · simp at hs
        simp only [makeSlice] at hm
        split at hm
        · simp only [Option.some.injEq] at hm
          subst hm
          have hzero : (List.replicate (e.ColumnCount % 2 ^ 64) (none : Option Bytes)).countP
              Option.isSome = 0 := by
            rw [List.countP_eq_zero]
            intro a ha
            rw [List.eq_of_mem_replicate ha]
            simp
          have hpop := countP_isPresent_le_bitCount bitmap (e.ColumnCount % 2 ^ 64)
          have hsum := countP_isSome_add_isNone rows1
          simp only [List.length_replicate, hmod] at hlen
          obtain ⟨-, cur, hc0, hc1, hall⟩ := decodeRowsLoop_entries table bitmap data nullBitmap
            rows1 pos1 (e.ColumnCount % 2 ^ 64) 0 _ _ 0 hl rfl
            (fun j _ hj => by
              rw [List.getElem?_replicate, if_pos (by omega)])
          rw [hmod] at hpop
          simp only [hmod] at hcnt hzero
          refine ⟨hlen, ⟨cur, by simpa using hc0, ?_, ?_⟩, hpop,
            nullBitIndex_eq_bitCount bitmap _, countP_absent bitmap _, by omega, by omega⟩
          · rw [← hn, ← hc1, hmod, Nat.zero_add]
          · intro i hi
            have := hall i (Nat.zero_le _) (by omega)
            rw [hnb] at this
            exact this
        · simp at hm

theorem decodeRows_image_entries_witness :
    ([none, some [0x34, 0x12]] : RowImage).length = 2 ∧
    (∃ cur : Nat → Nat, cur 0 = (bitCount [0x03] + 7) / 8 ∧ cur 2 = 3 ∧
      ∀ i, i < 2 →
        (isPresent [0x03] i = false →
          ([none, some [0x34, 0x12]] : RowImage)[i]? = some none ∧ cur (i + 1) = cur i) ∧
        (isPresent [0x03] i = true →
          isNullBit (([0x01, 0x34, 0x12] : Bytes).take ((bitCount [0x03] + 7) / 8))
            (nullBitIndex [0x03] i) = true →
          ([none, some [0x34, 0x12]] : RowImage)[i]? = some none ∧ cur (i + 1) = cur i) ∧
        (isPresent [0x03] i = true →
          isNullBit (([0x01, 0x34, 0x12] : Bytes).take ((bitCount [0x03] + 7) / 8))
            (nullBitIndex [0x03] i) = false →
          ∃ tp m v k,
            index (tableOf 1 [MYSQL_TYPE_TINY, MYSQL_TYPE_SHORT] [0, 0]).ColumnType i =
              some tp ∧
            index (tableOf 1 [MYSQL_TYPE_TINY, MYSQL_TYPE_SHORT] [0, 0]).ColumnMeta i =
              some m ∧
            decodeValue (([0x01, 0x34, 0x12] : Bytes).drop (cur i)) tp m = .ok (v, k) ∧
            ([none, some [0x34, 0x12]] : RowImage)[i]? = some v ∧ cur (i + 1) = cur i + k)) ∧
    nullBitIndex [0x03] 2 ≤ bitCount [0x03] ∧
    ((∀ j, 2 ≤ j → isPresent [0x03] j = false) → nullBitIndex [0x03] 2 = bitCount [0x03]) ∧
    (List.range' 0 2).countP (fun i => !isPresent [0x03] i) = 2 - nullBitIndex [0x03] 2 ∧
    ([none, some [0x34, 0x12]] : RowImage).countP Option.isSome ≤ bitCount [0x03] ∧
    2 - bitCount [0x03] ≤ ([none, some [0x34, 0x12]] : RowImage).countP Option.isNone :=
  decodeRows_image_entries
    (rowsAfterHead (tableOf 1 [MYSQL_TYPE_TINY, MYSQL_TYPE_SHORT] [0, 0]) false 2 [0x03] [])
    { rowsAfterHead (tableOf 1 [MYSQL_TYPE_TINY, MYSQL_TYPE_SHORT] [0, 0]) false 2 [0x03] []
      with Rows := [[none, some [0x34, 0x12]]] }
    [0x01, 0x34, 0x12] (tableOf 1 [MYSQL_TYPE_TINY, MYSQL_TYPE_SHORT] [0, 0]) [0x03] 3
    [none, some [0x34, 0x12]] (by decide) (by decide) (by decide)

end Replication
